import Mathlib

/-!
Verification of the NoBBQ row-processing pipeline scripts.

Shallow embedding of the two main variants:
* `src/tools/Automated scoring/excel_classify_to_openai.py` (batched strict
  classification with resume and per-row fallback), and
* `src/tools/API calls to get responses/excel_prompts_to_answers_gemini.py`
  (single-row answering with retry/backoff).

The remote generation API is an opaque boundary; it is modelled as an
oracle indexed by a global call counter (each remote invocation consumes
one index), returning either a response payload or an exception message.
Strings are modelled over their character lists; the Python string
operations used by the scripts (strip, lower, splitlines, replace,
substring test) are re-implemented on ASCII semantics, which covers every
character the scripts compare against.  All recursive definitions are
structural or fuel-based so that concrete runs evaluate inside the kernel.
-/

deriving instance DecidableEq for Except

/-- ASCII model of Python's `\s` class (space, tab, newline, CR, VT, FF). -/
def isPySpace (c : Char) : Bool :=
  c = ' ' || c = '\t' || c = '\n' || c = '\r' || c = '\x0b' || c = '\x0c'

/-- ASCII model of Python's `\w` class. -/
def isWordChar (c : Char) : Bool :=
  c.isAlpha || c.isDigit || c = '_'

/-- ASCII lowercasing of one character, as `str.lower` acts on ASCII. -/
def lowerChar (c : Char) : Char :=
  if 'A' ≤ c && c ≤ 'Z' then Char.ofNat (c.toNat + 32) else c

/-- Python `str.lower()` (ASCII fragment). -/
def pyLower (s : String) : String :=
  String.mk (s.data.map lowerChar)

/-- Python `str.strip()` (ASCII whitespace fragment). -/
def pyTrim (s : String) : String :=
  String.mk (((s.data.dropWhile isPySpace).reverse.dropWhile isPySpace).reverse)

/-- Substring test on character lists: does `pat` occur inside the list? -/
def isInfixB (pat : List Char) : List Char → Bool
  | [] => pat.isEmpty
  | c :: rest => pat.isPrefixOf (c :: rest) || isInfixB pat rest

/-- Python's `pat in s` substring test. -/
def containsSub (s pat : String) : Bool :=
  isInfixB pat.data s.data

/-- Value of a decimal digit string, as Python `int()` on the capture. -/
def digitsToNat (ds : List Char) : Nat :=
  ds.foldl (fun a c => a * 10 + (c.toNat - 48)) 0

/-- Helper for `splitlines`: accumulates the current line (reversed);
fuel-based so that concrete runs reduce inside the kernel. -/
def splitlinesAux : Nat → List Char → List Char → List String
  | _, [], acc => if acc.isEmpty then [] else [String.mk acc.reverse]
  | 0, _ :: _, acc => if acc.isEmpty then [] else [String.mk acc.reverse]
  | fuel + 1, '\r' :: '\n' :: rest, acc => String.mk acc.reverse :: splitlinesAux fuel rest []
  | fuel + 1, '\n' :: rest, acc => String.mk acc.reverse :: splitlinesAux fuel rest []
  | fuel + 1, '\r' :: rest, acc => String.mk acc.reverse :: splitlinesAux fuel rest []
  | fuel + 1, c :: rest, acc => splitlinesAux fuel rest (c :: acc)

/-- Python `str.splitlines()` (LF / CRLF / CR terminators). -/
def splitlines (s : String) : List String :=
  splitlinesAux s.data.length s.data []

/-!
## Embedding of `src/tools/Automated scoring/excel_classify_to_openai.py`

`LABEL_RE = re.compile(r"\bans\d+\b", flags=re.IGNORECASE)`
`LINE_RE  = re.compile(r"^\s*ID=(\d+)\s+(\bans\d+\b)\s*$", flags=re.IGNORECASE)`
-/

/-- Scanner for `LABEL_RE.findall` / `LABEL_RE.search`: finds the
non-overlapping matches of `\bans\d+\b` (case-insensitive) left to right.
`prevWord` records whether the previous character was a word character
(the `\b` on the left).  The digit run is maximal; a shorter run would put
a digit, hence a word character, after the match and violate the right
`\b`, so maximal munch is equivalent to the regex's backtracking search.
Fuel-based (each step consumes at least one character). -/
def findAnsAux : Nat → List Char → Bool → List String
  | 0, _, _ => []
  | _ + 1, [], _ => []
  | fuel + 1, c :: rest, prevWord =>
    if !prevWord && (c = 'a' || c = 'A') then
      match rest with
      | n :: s :: rest2 =>
        if (n = 'n' || n = 'N') && (s = 's' || s = 'S') then
          let ds := rest2.takeWhile Char.isDigit
          let rest3 := rest2.dropWhile Char.isDigit
          if !ds.isEmpty && (match rest3 with
              | [] => true
              | d :: _ => !isWordChar d) then
            String.mk (c :: n :: s :: ds) :: findAnsAux fuel rest3 true
          else
            findAnsAux fuel rest (isWordChar c)
        else
          findAnsAux fuel rest (isWordChar c)
      | _ => findAnsAux fuel rest (isWordChar c)
    else
      findAnsAux fuel rest (isWordChar c)

/-- All matches of `LABEL_RE` in a string, in order. -/
def findAnsTokens (s : String) : List String :=
  findAnsAux s.data.length s.data false

/-- The dedup loop of `extract_labels`: lowercase each label, keep the
first occurrence of each lowercased form in order (`seen` set + `ordered`
list in the source). -/
def dedupeAux : List String → List String → List String
  | _, [] => []
  | seen, lab :: rest =>
    let l := pyLower lab
    if seen.contains l then dedupeAux seen rest
    else l :: dedupeAux (l :: seen) rest

/-- Embedding of `extract_labels` (and `extract_labels_from_text` in
`src/tools/excel_classify_to_openai.py`, which is the same code):
distinct `ans<n>` tokens of the text lowercased in first-seen order, or a
default vocabulary when none occur. -/
def extract_labels (text : String) : List String :=
  let labels := findAnsTokens text
  let ordered := dedupeAux [] labels
  if ordered.isEmpty then ["ans0", "ans1", "ans2"] else ordered

/-- Matcher for `LINE_RE.match(line)`: `^\s*ID=(\d+)\s+(\bans\d+\b)\s*$`
with `IGNORECASE`.  Returns `int(group(1))` and `group(2)` (original
case).  The digit runs are maximal and the leading `\s*` / separating
`\s+` are maximal munch; the regex's backtracking cannot produce any
other split (shorter digit runs leave a digit where a non-digit is
required, shorter space runs leave a space where `I`/`a` is required),
and the two `\b` are implied by the neighbouring `\s` and `$`. -/
def lineREMatch (line : String) : Option (Nat × String) :=
  match line.data.dropWhile isPySpace with
  | c1 :: c2 :: c3 :: rest =>
    if (c1 = 'I' || c1 = 'i') && (c2 = 'D' || c2 = 'd') && c3 = '=' then
      let ds := rest.takeWhile Char.isDigit
      let r1 := rest.dropWhile Char.isDigit
      if ds.isEmpty then none
      else if (r1.takeWhile isPySpace).isEmpty then none
      else
        match r1.dropWhile isPySpace with
        | a :: n :: s :: r3 =>
          if (a = 'a' || a = 'A') && (n = 'n' || n = 'N') && (s = 's' || s = 'S') then
            let ds2 := r3.takeWhile Char.isDigit
            let r4 := r3.dropWhile Char.isDigit
            if ds2.isEmpty then none
            else if r4.all isPySpace then
              some (digitsToNat ds, String.mk (a :: n :: s :: ds2))
            else none
          else none
        | _ => none
    else none
  | _ => none

/-- Python `dict` over `Nat` keys, as an insertion-ordered association
list with unique keys. -/
abbrev Dict : Type := List (Nat × String)

/-- Test `k in d` for the dict model. -/
def dictHasKey (m : Dict) (k : Nat) : Bool :=
  m.any (fun p => p.1 == k)

/-- Assignment `d[k] = v` for the dict model: updates in place, or appends. -/
def dictInsert (m : Dict) (k : Nat) (v : String) : Dict :=
  if dictHasKey m k then m.map (fun p => if p.1 == k then (k, v) else p)
  else m ++ [(k, v)]

/-- Lookup `d[k]` for the dict model. -/
def dictGet? (m : Dict) (k : Nat) : Option String :=
  (m.find? (fun p => p.1 == k)).map (fun p => p.2)

/-- Key list of the dict model. -/
def dictKeys (m : Dict) : List Nat :=
  m.map (fun p => p.1)

/-- The line loop of `parse_batch_output`. -/
def parseLinesLoop : List String → Dict → Dict
  | [], results => results
  | line :: rest, results =>
    match lineREMatch line with
    | some (ridx, label) => parseLinesLoop rest (dictInsert results ridx (pyLower label))
    | none => parseLinesLoop rest results

/-- Embedding of `parse_batch_output(text)`: match every line against `LINE_RE`,
store `int(group(1)) ↦ group(2).lower()`, ignore non-matching lines. -/
def parse_batch_output (text : String) : Dict :=
  parseLinesLoop (splitlines text) []

/-- Embedding of `build_batch_prompt(items)`. -/
def build_batch_prompt (items : List (Nat × String × List String)) : String :=
  let header :=
    "Du er en streng klassifikator.\n" ++
    "Oppgave: For hvert element skal du returnere KUN én etikett fra listen angitt.\n" ++
    "Output-format: ÉN linje per element, nøyaktig slik: 'ID=<id> <etikett>'\n" ++
    "Ingen ekstra tekst, ingen forklaring, ingen punktum.\n"
  let lines := "\nELEMENTER:" ::
    items.map (fun it =>
      "ID=" ++ toString it.1 ++ " | Tillatte: " ++ String.intercalate ", " it.2.2 ++
      " | Tekst: " ++ it.2.1)
  let footer := "\nReturner nå kun resultatlinjene:\nEksempel: ID=12 ans1"
  header ++ String.intercalate "\n" lines ++ footer

/-- The per-row fallback prompt built inside `classify_batch`. -/
def build_single_prompt (text : String) (labels : List String) : String :=
  "Du er en streng klassifikator.\n" ++
  "Returner KUN én etikett, uten ekstra tekst.\n" ++
  "Tillatte: " ++ String.intercalate ", " labels ++ "\n" ++
  "Tekst:\n" ++ text ++ "\n\n" ++
  "Returner kun én: " ++ String.intercalate ", " labels

/-- One outcome of the remote OpenAI Responses call: either a response
object (its `output_text` attribute and the text pieces of its `output`
items) or a raised exception, carried as its message. -/
inductive OaOutcome : Type
  | resp (output_text : Option String) (pieces : List String)
  | exn (msg : String)

/-- An oracle for the remote endpoint: the outcome of the `k`-th remote
call of the run, given the prompt it was sent. -/
abbrev OaOracle : Type := Nat → String → OaOutcome

/-- Embedding of `call_openai(prompt, model)`: extract `resp.output_text` when truthy,
otherwise join the text pieces and strip; strip the final result.  The
call consumes one oracle index; a raised exception propagates. -/
def call_openai (oracle : OaOracle) (prompt : String) (k : Nat) :
    Except String (String × Nat) :=
  match oracle k prompt with
  | .exn e => .error e
  | .resp output_text pieces =>
    let out : String :=
      match output_text with
      | some s => if s = "" then pyTrim (String.join pieces) else s
      | none => pyTrim (String.join pieces)
    .ok (pyTrim out, k + 1)

/-- The result cleanup `m = LABEL_RE.search(out2); m.group(0).lower() if m
else out2.strip()` shared by the `classify_batch` fallback and by `main`
of `src/tools/excel_classify_to_openai.py` (lines 117-118 there). -/
def clean_label (out2 : String) : String :=
  match (findAnsTokens out2).head? with
  | some t => pyLower t
  | none => pyTrim out2

/-- The per-row fallback loop of `classify_batch`: for each batch row
whose id is still missing from `parsed`, issue one single-row call;
store its cleaned result, or `"ERROR: " ++ e` if that call raises. -/
def fallbackLoop (oracle : OaOracle) : List (Nat × String × List String) →
    Dict × Nat → Dict × Nat
  | [], acc => acc
  | (ridx, text, labels) :: rest, (parsed, k) =>
    if dictHasKey parsed ridx then fallbackLoop oracle rest (parsed, k)
    else
      match call_openai oracle (build_single_prompt text labels) k with
      | .ok (out2, k') =>
        fallbackLoop oracle rest (dictInsert parsed ridx (clean_label out2), k')
      | .error e =>
        fallbackLoop oracle rest (dictInsert parsed ridx ("ERROR: " ++ e), k + 1)

/-- Embedding of `classify_batch(batch, model)`: one batch call, parse, and if some
expected row id is missing from the parse, per-row fallback.  An
exception of the batch call itself is uncaught and propagates. -/
def classify_batch (oracle : OaOracle) (batch : List (Nat × String × List String))
    (k : Nat) : Except String (Dict × Nat) :=
  match call_openai oracle (build_batch_prompt batch) k with
  | .error e => .error e
  | .ok (out, k1) =>
    let parsed := parse_batch_output out
    let expected := batch.map (fun it => it.1)
    if expected.all (fun i => dictHasKey parsed i) then .ok (parsed, k1)
    else .ok (fallbackLoop oracle batch (parsed, k1))

/-- Embedding of `chunked(seq, size)`: contiguous chunks of `size` rows (fuel-based;
meaningful for `size ≥ 1` — Python raises `ValueError` on `size = 0`). -/
def chunkedAux {α : Type} : Nat → List α → Nat → List (List α)
  | 0, _, _ => []
  | _ + 1, [], _ => []
  | fuel + 1, l, size => l.take size :: chunkedAux fuel (l.drop size) size

/-- Entry point of `chunked(seq, size)` as used by the main loop. -/
def chunked {α : Type} (l : List α) (size : Nat) : List (List α) :=
  chunkedAux l.length l size

/-- One spreadsheet row: the text cell of column A and the output cell of
column B, `none` modelling a missing value (`NaN`). -/
structure Row : Type where
  a : Option String
  b : Option String
deriving DecidableEq

/-- The emptiness test applied to both cells:
`pd.isna(val) or not str(val).strip()`. -/
def cellBlank : Option String → Bool
  | none => true
  | some s => pyTrim s == ""

/-- The task built from one row of the task-collection loop (lines
131-139): skip when column A is missing/blank, skip when column B is
already non-blank (resume), otherwise `(idx, text, extract_labels text)`. -/
def taskOfRow (idxrow : Nat × Row) : Option (Nat × String × List String) :=
  match idxrow.2.a with
  | none => none
  | some v =>
    if pyTrim v = "" then none
    else if cellBlank idxrow.2.b then
      some (idxrow.1, pyTrim v, extract_labels (pyTrim v))
    else none

/-- The task list of the run, in row order. -/
def collectTasks (table : List Row) : List (Nat × String × List String) :=
  table.enum.filterMap taskOfRow

/-- Write `df.iat[ridx, 1] = label`: write column B of row `ridx`; an
out-of-range index raises (`IndexError`), modelled as `.error`. -/
def setCellB (t : List Row) (i : Nat) (v : String) : Except String (List Row) :=
  match t[i]? with
  | some row => .ok (t.set i { row with b := some v })
  | none => .error "IndexError"

/-- The write-back loop over one batch's results (lines 144-145). -/
def applyWrites (t : List Row) : List (Nat × String) → Except String (List Row)
  | [] => .ok t
  | (i, v) :: rest =>
    match setCellB t i v with
    | .ok t' => applyWrites t' rest
    | .error e => .error e

/-- The batch loop of `__main__` (lines 142-146), threading the table and
the remote-call counter. -/
def runBatches (oracle : OaOracle) : List (List (Nat × String × List String)) →
    List Row × Nat → Except String (List Row × Nat)
  | [], acc => .ok acc
  | batch :: rest, (t, k) =>
    match classify_batch oracle batch k with
    | .error e => .error e
    | .ok (results, k') =>
      match applyWrites t results with
      | .ok t' => runBatches oracle rest (t', k')
      | .error e => .error e

/-- The whole row pipeline of the batch classifier: collect tasks, chunk
them, classify each chunk, write results back.  Returns the final table
and the number of remote calls made. -/
def runPipeline (oracle : OaOracle) (batchSize : Nat) (table : List Row) :
    Except String (List Row × Nat) :=
  runBatches oracle (chunked (collectTasks table) batchSize) (table, 0)

/-- Python `str.replace(pat, repl)` on character lists (all non-overlapping
occurrences, left to right; `pat` is never empty where used). -/
def replaceAux (pat repl : List Char) : Nat → List Char → List Char
  | 0, cs => cs
  | fuel + 1, cs =>
    match cs with
    | [] => []
    | c :: rest =>
      if pat.isPrefixOf cs then repl ++ replaceAux pat repl fuel (cs.drop pat.length)
      else c :: replaceAux pat repl fuel rest

/-- Python `s.replace(pat, repl)`. -/
def pyReplace (s pat repl : String) : String :=
  String.mk (replaceAux pat.data repl.data s.data.length s.data)

/-- Derivation `out_path = args.excel_path.replace(".xlsx", "_with_results.xlsx")`
(batch classifier, line 148). -/
def out_path_results (excel_path : String) : String :=
  pyReplace excel_path ".xlsx" "_with_results.xlsx"

/-- Derivation `out_path = args.excel_path.replace(".xlsx", "_with_answers.xlsx")`
(Gemini script, line 133). -/
def out_path_answers (excel_path : String) : String :=
  pyReplace excel_path ".xlsx" "_with_answers.xlsx"

/-!
## Embedding of `src/tools/API calls to get responses/excel_prompts_to_answers_gemini.py`
-/

/-- A Gemini response object: its `text` attribute and the text parts
collected from its candidates. -/
structure GenResp : Type where
  text : Option String
  parts : List String
deriving DecidableEq

/-- Outcome of one `model.generate_content` call: a response or a raised
exception, carried as its message. -/
inductive GenOutcome : Type
  | resp (r : GenResp)
  | exn (msg : String)

/-- Oracle for the Gemini endpoint, indexed by the global call counter. -/
abbrev GenOracle : Type := Nat → String → GenOutcome

/-- The success path of `call_gemini_safe`'s try-body: prefer a truthy
`resp.text` (stripped), else join the candidate parts, strip, and fall
back to `"(empty response)"`. -/
def extract_resp_text (r : GenResp) : String :=
  match r.text with
  | some t =>
    if t = "" then
      let j := pyTrim (String.join r.parts)
      if j = "" then "(empty response)" else j
    else pyTrim t
  | none =>
    let j := pyTrim (String.join r.parts)
    if j = "" then "(empty response)" else j

/-- The transient-failure classifier of `call_gemini_safe` (line 54):
`"429" in msg or "rate" in msg or "quota" in msg or "resource exhausted"
in msg`, on the lowercased message. -/
def transient_gemini_msg (msg : String) : Bool :=
  containsSub msg "429" || containsSub msg "rate" || containsSub msg "quota" ||
    containsSub msg "resource exhausted"

/-- The safety-block classifier of `call_gemini_safe` (line 63):
`"safety" in msg or "blocked" in msg`, on the lowercased message. -/
def blocked_gemini_msg (msg : String) : Bool :=
  containsSub msg "safety" || containsSub msg "blocked"

/-- Python `min(a, b)` on rationals (`min(wait, 30.0)` in the source). -/
def pyMin (a b : ℚ) : ℚ :=
  if a ≤ b then a else b

/-- The attempt loop of `call_gemini_safe`.  `attempt` is the loop index
(the backoff exponent), `k` the global call counter, and the fuel is the
number of attempts left.  Returns the outcome (`.error` models an
uncaught re-raise), the new call counter, and the list of backoff sleeps
in seconds, in order. -/
def callGeminiAux (oracle : GenOracle) (jitter : Nat → ℚ) (prompt : String) :
    Nat → Nat → Nat → Except String String × Nat × List ℚ
  | _, k, 0 => (.ok "ERROR: too many retries due to rate limits", k, [])
  | attempt, k, fuel + 1 =>
    match oracle k prompt with
    | .resp r => (.ok (extract_resp_text r), k + 1, [])
    | .exn e =>
      let msg := pyLower e
      if transient_gemini_msg msg then
        let wait := pyMin (2 ^ attempt + jitter k) 30
        let rec_ := callGeminiAux oracle jitter prompt (attempt + 1) (k + 1) fuel
        (rec_.1, rec_.2.1, wait :: rec_.2.2)
      else if blocked_gemini_msg msg then (.ok "(blocked)", k + 1, [])
      else (.error e, k + 1, [])

/-- Embedding of `call_gemini_safe(prompt, model_name, retries=6)` starting at global
call counter `k`. -/
def call_gemini_safe (oracle : GenOracle) (jitter : Nat → ℚ) (prompt : String)
    (k : Nat) (retries : Nat := 6) : Except String String × Nat × List ℚ :=
  callGeminiAux oracle jitter prompt 0 k retries

/-- The per-row loop of the Gemini `main` (lines 94-128): iterate the
(index, column-A value) pairs of the loaded table; skip blank prompts,
skip rows whose live column B is already non-blank, otherwise call
`call_gemini_safe` and write the answer (or `"(empty response)"`, or an
`"ERROR: " ++ e` marker when the call re-raised). -/
def runGeminiLoop (oracle : GenOracle) (jitter : Nat → ℚ) (retries : Nat) :
    List (Nat × Row) → List Row × Nat → List Row × Nat
  | [], acc => acc
  | (idx, row) :: rest, (t, k) =>
    if cellBlank row.a then runGeminiLoop oracle jitter retries rest (t, k)
    else
      match t[idx]? with
      | none => runGeminiLoop oracle jitter retries rest (t, k)
      | some cur =>
        if !cellBlank cur.b then runGeminiLoop oracle jitter retries rest (t, k)
        else
          let prompt := pyTrim (row.a.getD "")
          let res := call_gemini_safe oracle jitter prompt k retries
          let newB : String :=
            match res.1 with
            | .ok answer => if answer = "" then "(empty response)" else answer
            | .error e => "ERROR: " ++ e
          runGeminiLoop oracle jitter retries rest
            (t.set idx { cur with b := some newB }, res.2.1)

/-- The Gemini row pipeline: returns the final table and the number of
remote calls made. -/
def runGeminiPipeline (oracle : GenOracle) (jitter : Nat → ℚ) (retries : Nat)
    (table : List Row) : List Row × Nat :=
  runGeminiLoop oracle jitter retries table.enum (table, 0)

/-!
## Spec-side definitions used to state the claims
-/

/-- The line grammar implemented by `LINE_RE` under `IGNORECASE`, stated
declaratively: optional whitespace, `ID=` (either case), a non-empty
digit run, whitespace, an `ans`-token (`ans` in any case followed by a
non-empty digit run), optional trailing whitespace; the identifier is the
decimal value of the first digit run and the label is the token as
written. -/
def LineGrammar (line : String) (i : Nat) (lab : String) : Prop :=
  ∃ w1 c1 c2 ds w2 a n s ds2 w3,
    line.data = w1 ++ [c1, c2, '='] ++ ds ++ w2 ++ (a :: n :: s :: ds2) ++ w3 ∧
    (∀ c ∈ w1, isPySpace c = true) ∧
    (c1 = 'I' ∨ c1 = 'i') ∧ (c2 = 'D' ∨ c2 = 'd') ∧
    ds ≠ [] ∧ (∀ c ∈ ds, c.isDigit = true) ∧
    w2 ≠ [] ∧ (∀ c ∈ w2, isPySpace c = true) ∧
    (a = 'a' ∨ a = 'A') ∧ (n = 'n' ∨ n = 'N') ∧ (s = 's' ∨ s = 'S') ∧
    ds2 ≠ [] ∧ (∀ c ∈ ds2, c.isDigit = true) ∧
    (∀ c ∈ w3, isPySpace c = true) ∧
    i = digitsToNat ds ∧ lab = String.mk (a :: n :: s :: ds2)

/-- The line grammar exactly as the specification words it: literal `ID=`
prefix, case-insensitive only on the token.  Differs from `lineREMatch`
only in the first two characters. -/
def specLineParse (line : String) : Option (Nat × String) :=
  match line.data.dropWhile isPySpace with
  | c1 :: c2 :: c3 :: rest =>
    if c1 = 'I' && c2 = 'D' && c3 = '=' then
      let ds := rest.takeWhile Char.isDigit
      let r1 := rest.dropWhile Char.isDigit
      if ds.isEmpty then none
      else if (r1.takeWhile isPySpace).isEmpty then none
      else
        match r1.dropWhile isPySpace with
        | a :: n :: s :: r3 =>
          if (a = 'a' || a = 'A') && (n = 'n' || n = 'N') && (s = 's' || s = 'S') then
            let ds2 := r3.takeWhile Char.isDigit
            let r4 := r3.dropWhile Char.isDigit
            if ds2.isEmpty then none
            else if r4.all isPySpace then
              some (digitsToNat ds, String.mk (a :: n :: s :: ds2))
            else none
          else none
        | _ => none
    else none
  | _ => none

/-- Spec-side "distinct, first-seen order" dedup (keep the first
occurrence of each element). -/
def firstSeenAux : Nat → List String → List String
  | 0, _ => []
  | _ + 1, [] => []
  | fuel + 1, x :: xs => x :: firstSeenAux fuel (xs.filter (fun y => y != x))

/-- Spec-side dedup keeping first occurrences, in order. -/
def firstSeen (l : List String) : List String :=
  firstSeenAux l.length l

/-- Spec-side shape of a classification label: `ans` followed by a
non-empty digit run. -/
def ansLabelShaped (str : String) : Bool :=
  match str.data with
  | 'a' :: 'n' :: 's' :: ds => !ds.isEmpty && ds.all Char.isDigit
  | _ => false

/-!
## Helper lemmas
-/

theorem takeWhile_all_append {α : Type} (p : α → Bool) (xs ys : List α)
    (h : ∀ a ∈ xs, p a = true) :
    (xs ++ ys).takeWhile p = xs ++ ys.takeWhile p := by
  induction xs with
  | nil => simp
  | cons x xs ih =>
    have hx : p x = true := h x (by simp)
    simp only [List.cons_append, List.takeWhile_cons, hx, if_true]
    rw [ih (fun a ha => h a (by simp [ha]))]

theorem dropWhile_all_append {α : Type} (p : α → Bool) (xs ys : List α)
    (h : ∀ a ∈ xs, p a = true) :
    (xs ++ ys).dropWhile p = ys.dropWhile p := by
  induction xs with
  | nil => simp
  | cons x xs ih =>
    have hx : p x = true := h x (by simp)
    simp only [List.cons_append, List.dropWhile_cons, hx, if_true]
    exact ih (fun a ha => h a (by simp [ha]))

theorem takeWhile_eq_self {α : Type} (p : α → Bool) (xs : List α)
    (h : ∀ a ∈ xs, p a = true) : xs.takeWhile p = xs := by
  have := takeWhile_all_append p xs [] h
  simpa using this

theorem dropWhile_eq_nil {α : Type} (p : α → Bool) (xs : List α)
    (h : ∀ a ∈ xs, p a = true) : xs.dropWhile p = [] := by
  have := dropWhile_all_append p xs [] h
  simpa using this

theorem upsert_fst (k : Nat) (v : String) (p : Nat × String) :
    (if p.1 == k then (k, v) else p).1 = p.1 := by
  by_cases h : p.1 == k
  · have h2 : p.1 = k := by simpa using h
    simp [h, h2]
  · simp [h]

theorem dictHasKey_iff (m : Dict) (j : Nat) :
    dictHasKey m j = true ↔ j ∈ dictKeys m := by
  unfold dictHasKey dictKeys
  simp only [List.any_eq_true, List.mem_map, beq_iff_eq]

theorem dictKeys_insert (m : Dict) (k : Nat) (v : String) :
    dictKeys (dictInsert m k v) =
      if dictHasKey m k then dictKeys m else dictKeys m ++ [k] := by
  unfold dictInsert
  by_cases h : dictHasKey m k
  · simp only [h, if_true]
    unfold dictKeys
    rw [List.map_map]
    exact List.map_congr_left (fun p _ => upsert_fst k v p)
  · simp only [h, Bool.false_eq_true, if_false]
    unfold dictKeys
    simp

theorem dictHasKey_insert (m : Dict) (k j : Nat) (v : String) :
    dictHasKey (dictInsert m k v) j = true ↔ dictHasKey m j = true ∨ j = k := by
  by_cases h : dictHasKey m k
  · rw [dictHasKey_iff, dictKeys_insert]
    simp only [h, if_true]
    rw [← dictHasKey_iff]
    constructor
    · exact Or.inl
    · rintro (hj | rfl)
      · exact hj
      · exact h
  · rw [dictHasKey_iff, dictKeys_insert]
    simp only [h, Bool.false_eq_true, if_false, List.mem_append,
      List.mem_singleton]
    rw [← dictHasKey_iff]

theorem fst_mem_of_mem_dictInsert (m : Dict) (k : Nat) (v : String)
    (p : Nat × String) (hp : p ∈ dictInsert m k v) :
    p.1 ∈ dictKeys m ∨ p.1 = k := by
  unfold dictInsert at hp
  by_cases h : dictHasKey m k
  · simp only [h, if_true] at hp
    obtain ⟨q, hq, he⟩ := List.mem_map.mp hp
    rw [← he, upsert_fst]
    exact Or.inl (List.mem_map_of_mem (fun r => r.1) hq)
  · simp only [h, Bool.false_eq_true, if_false, List.mem_append,
      List.mem_singleton] at hp
    rcases hp with hp | rfl
    · exact Or.inl (List.mem_map_of_mem (fun r => r.1) hp)
    · exact Or.inr rfl

theorem find?_map_upsert_self (m : Dict) (k : Nat) (v : String)
    (h : dictHasKey m k = true) :
    (m.map (fun p => if p.1 == k then (k, v) else p)).find? (fun p => p.1 == k)
      = some (k, v) := by
  induction m with
  | nil => simp [dictHasKey] at h
  | cons q m ih =>
    by_cases hq : q.1 == k
    · simp only [List.map_cons, hq, if_true]
      exact List.find?_cons_of_pos _ (by simp)
    · simp only [List.map_cons, hq, Bool.false_eq_true, if_false]
      rw [List.find?_cons_of_neg _ (by simpa using hq)]
      apply ih
      unfold dictHasKey at h ⊢
      simpa [hq] using h

theorem find?_map_upsert_ne (m : Dict) (k j : Nat) (v : String) (hjk : j ≠ k) :
    (m.map (fun p => if p.1 == k then (k, v) else p)).find? (fun p => p.1 == j)
      = m.find? (fun p => p.1 == j) := by
  induction m with
  | nil => simp
  | cons q m ih =>
    by_cases hqj : q.1 == j
    · have hqj2 : q.1 = j := by simpa using hqj
      have hqk : (q.1 == k) = false := by simp [hqj2, hjk]
      simp only [List.map_cons, hqk, Bool.false_eq_true, if_false]
      rw [@List.find?_cons_of_pos _ (fun p : Nat × String => p.1 == j) q
        (m.map (fun p => if p.1 == k then (k, v) else p)) hqj]
      rw [@List.find?_cons_of_pos _ (fun p : Nat × String => p.1 == j) q m hqj]
    · simp only [List.map_cons]
      rw [@List.find?_cons_of_neg _ (fun p : Nat × String => p.1 == j)
        (if q.1 == k then (k, v) else q)
        (m.map (fun p => if p.1 == k then (k, v) else p))
        (by
          intro hx
          simp only [] at hx
          rw [upsert_fst] at hx
          exact hqj hx)]
      rw [@List.find?_cons_of_neg _ (fun p : Nat × String => p.1 == j) q m hqj]
      exact ih

theorem dictGet?_insert_self (m : Dict) (k : Nat) (v : String) :
    dictGet? (dictInsert m k v) k = some v := by
  unfold dictInsert dictGet?
  by_cases h : dictHasKey m k
  · simp only [h, if_true]
    rw [find?_map_upsert_self m k v h]
    rfl
  · simp only [h, Bool.false_eq_true, if_false]
    rw [List.find?_append]
    have h2 : m.find? (fun p => p.1 == k) = none := by
      rw [List.find?_eq_none]
      intro p hp hpk
      unfold dictHasKey at h
      exact h (List.any_eq_true.mpr ⟨p, hp, hpk⟩)
    have h3 : List.find? (fun p => p.1 == k) [(k, v)] = some (k, v) :=
      List.find?_cons_of_pos _ (by simp)
    rw [h2, h3]
    rfl

theorem dictGet?_insert_ne (m : Dict) (k j : Nat) (v : String) (hjk : j ≠ k) :
    dictGet? (dictInsert m k v) j = dictGet? m j := by
  unfold dictInsert dictGet?
  by_cases h : dictHasKey m k
  · simp only [h, if_true]
    rw [find?_map_upsert_ne m k j v hjk]
  · simp only [h, Bool.false_eq_true, if_false]
    rw [List.find?_append]
    have h2 : List.find? (fun p => p.1 == j) [(k, v)] = none := by
      rw [List.find?_cons_of_neg _ (by simpa using Ne.symm hjk)]
      rfl
    rw [h2]
    cases m.find? (fun p => p.1 == j) <;> rfl

theorem mem_of_getElem?_some {α : Type} {l : List α} {i : Nat} {a : α}
    (h : l[i]? = some a) : a ∈ l := by
  obtain ⟨hlt, he⟩ := List.getElem?_eq_some.mp h
  exact he ▸ List.getElem_mem hlt

theorem mem_dictKeys_insert (m : Dict) (k : Nat) (v : String) (j : Nat) :
    j ∈ dictKeys (dictInsert m k v) ↔ j ∈ dictKeys m ∨ j = k := by
  rw [← dictHasKey_iff, dictHasKey_insert, dictHasKey_iff]

theorem fallbackLoop_targets (oracle : OaOracle) :
    ∀ (items : List (Nat × String × List String)) (parsed : Dict) (k : Nat)
      (p : Nat × String), p ∈ (fallbackLoop oracle items (parsed, k)).1 →
      p.1 ∈ dictKeys parsed ∨ p.1 ∈ items.map (fun it => it.1)
  | [], parsed, k, p, hp => Or.inl (List.mem_map_of_mem (fun r => r.1) hp)
  | (ridx, text, labels) :: rest, parsed, k, p, hp => by
    unfold fallbackLoop at hp
    by_cases h : dictHasKey parsed ridx
    · simp only [h, if_true] at hp
      rcases fallbackLoop_targets oracle rest parsed k p hp with h1 | h1
      · exact Or.inl h1
      · exact Or.inr (by simp [h1])
    · simp only [h, Bool.false_eq_true, if_false] at hp
      rcases hcall : call_openai oracle (build_single_prompt text labels) k with e | ok
      all_goals rw [hcall] at hp
      · rcases fallbackLoop_targets oracle rest
            (dictInsert parsed ridx ("ERROR: " ++ e)) (k + 1) p hp with h1 | h1
        · rcases (mem_dictKeys_insert parsed ridx _ p.1).mp h1 with h2 | h2
          · exact Or.inl h2
          · exact Or.inr (by simp [h2])
        · exact Or.inr (by simp [h1])
      · rcases fallbackLoop_targets oracle rest
            (dictInsert parsed ridx (clean_label ok.1)) ok.2 p hp with h1 | h1
        · rcases (mem_dictKeys_insert parsed ridx _ p.1).mp h1 with h2 | h2
          · exact Or.inl h2
          · exact Or.inr (by simp [h2])
        · exact Or.inr (by simp [h1])

theorem classify_batch_targets (oracle : OaOracle)
    (batch : List (Nat × String × List String)) (k : Nat) (res : Dict) (k1 : Nat)
    (hok : classify_batch oracle batch k = .ok (res, k1)) (p : Nat × String)
    (hp : p ∈ res) :
    (∃ s k2, call_openai oracle (build_batch_prompt batch) k = .ok (s, k2) ∧
      p.1 ∈ dictKeys (parse_batch_output s)) ∨
      p.1 ∈ batch.map (fun it => it.1) := by
  unfold classify_batch at hok
  rcases hcall : call_openai oracle (build_batch_prompt batch) k with e | ⟨s, k2⟩
  · rw [hcall] at hok
    exact absurd hok (by simp)
  · rw [hcall] at hok
    replace hok : (if (batch.map (fun it => it.1)).all
          (fun i => dictHasKey (parse_batch_output s) i) = true
        then (Except.ok (parse_batch_output s, k2) : Except String (Dict × Nat))
        else .ok (fallbackLoop oracle batch (parse_batch_output s, k2))) = .ok (res, k1) := hok
    by_cases hsub : (batch.map (fun it => it.1)).all
        (fun i => dictHasKey (parse_batch_output s) i) = true
    · rw [if_pos hsub] at hok
      left
      refine ⟨s, k2, rfl, ?_⟩
      have he : parse_batch_output s = res := by
        simpa using congrArg (fun x : Except String (Dict × Nat) =>
          match x with | .ok u => u.1 | .error _ => []) hok
      rw [he]
      exact List.mem_map_of_mem (fun r => r.1) hp
    · rw [if_neg hsub] at hok
      have he : (fallbackLoop oracle batch (parse_batch_output s, k2)).1 = res := by
        simpa using congrArg (fun x : Except String (Dict × Nat) =>
          match x with | .ok u => u.1 | .error _ => []) hok
      have hmem : p ∈ (fallbackLoop oracle batch (parse_batch_output s, k2)).1 := by
        rw [he]
        exact hp
      rcases fallbackLoop_targets oracle batch (parse_batch_output s) k2 p hmem with h1 | h1
      · exact Or.inl ⟨s, k2, rfl, h1⟩
      · exact Or.inr h1

theorem applyWrites_getElem?_ne (i : Nat) :
    ∀ (ws : List (Nat × String)) (t t' : List Row),
      applyWrites t ws = .ok t' → (∀ p ∈ ws, p.1 ≠ i) → t'[i]? = t[i]?
  | [], t, t', hok, _ => by
    unfold applyWrites at hok
    simpa using congrArg (fun x : Except String (List Row) =>
      match x with | .ok u => u[i]? | .error _ => none) hok |>.symm
  | (j, v) :: rest, t, t', hok, hne => by
    unfold applyWrites setCellB at hok
    rcases hj : t[j]? with _ | row
    all_goals rw [hj] at hok
    · exact absurd hok (by simp)
    · have h1 := applyWrites_getElem?_ne i rest (t.set j { row with b := some v }) t' hok
        (fun p hp => hne p (by simp [hp]))
      rw [h1]
      exact List.getElem?_set_ne (hne (j, v) (by simp))

theorem runBatches_preserve (oracle : OaOracle) (i : Nat) :
    ∀ (batches : List (List (Nat × String × List String))) (t : List Row) (k : Nat)
      (t' : List Row) (k' : Nat),
      (∀ b ∈ batches, ∀ k0 res k1, classify_batch oracle b k0 = .ok (res, k1) →
        ∀ p ∈ res, p.1 ≠ i) →
      runBatches oracle batches (t, k) = .ok (t', k') → t'[i]? = t[i]?
  | [], t, k, t', k', _, hok => by
    unfold runBatches at hok
    simp only [Except.ok.injEq, Prod.mk.injEq] at hok
    rw [← hok.1]
  | b :: rest, t, k, t', k', H, hok => by
    unfold runBatches at hok
    rcases hcls : classify_batch oracle b k with e | ⟨results, k1⟩
    · rw [hcls] at hok
      exact absurd hok (by simp)
    · rw [hcls] at hok
      replace hok : (match applyWrites t results with
          | .ok t2 => runBatches oracle rest (t2, k1)
          | .error e => Except.error e) = .ok (t', k') := hok
      rcases happ : applyWrites t results with e | t1
      · rw [happ] at hok
        exact absurd hok (by simp)
      · rw [happ] at hok
        replace hok : runBatches oracle rest (t1, k1) = .ok (t', k') := hok
        have h1 := runBatches_preserve oracle i rest t1 k1 t' k'
          (fun b2 hb2 => H b2 (by simp [hb2])) hok
        have h2 := applyWrites_getElem?_ne i results t t1 happ
          (H b (by simp) k results k1 hcls)
        rw [h1, h2]

theorem chunkedAux_subset {α : Type} :
    ∀ (fuel : Nat) (l : List α) (size : Nat) (b : List α) (x : α),
      b ∈ chunkedAux fuel l size → x ∈ b → x ∈ l
  | 0, l, size, b, x, hb, _ => by
    unfold chunkedAux at hb
    simp at hb
  | fuel + 1, [], size, b, x, hb, _ => by
    unfold chunkedAux at hb
    simp at hb
  | fuel + 1, c :: l, size, b, x, hb, hx => by
    unfold chunkedAux at hb
    rcases List.mem_cons.mp hb with rfl | hb2
    · exact List.take_subset size (c :: l) hx
    · exact List.drop_subset size (c :: l)
        (chunkedAux_subset fuel ((c :: l).drop size) size b x hb2 hx)

theorem chunked_subset {α : Type} (l : List α) (size : Nat) (b : List α) (x : α)
    (hb : b ∈ chunked l size) (hx : x ∈ b) : x ∈ l :=
  chunkedAux_subset l.length l size b x hb hx

theorem collectTasks_sound (table : List Row) (i : Nat) (text : String)
    (labels : List String) (h : (i, text, labels) ∈ collectTasks table) :
    ∃ row, table[i]? = some row ∧ cellBlank row.a = false ∧ cellBlank row.b = true := by
  unfold collectTasks at h
  obtain ⟨⟨i2, row⟩, hmem, heq⟩ := List.mem_filterMap.mp h
  unfold taskOfRow at heq
  rcases ha : row.a with _ | v
  · rw [ha] at heq
    exact absurd heq (by simp)
  · rw [ha] at heq
    replace heq : (if pyTrim v = "" then none
        else if cellBlank row.b = true then
          some (i2, pyTrim v, extract_labels (pyTrim v))
        else none) = some (i, text, labels) := heq
    by_cases hv : pyTrim v = ""
    · rw [if_pos hv] at heq
      exact absurd heq (by simp)
    · rw [if_neg hv] at heq
      by_cases hb : cellBlank row.b = true
      · rw [if_pos hb] at heq
        have hi : i2 = i := by
          simpa using congrArg (fun x : Option (Nat × String × List String) =>
            match x with | some y => y.1 | none => 0) heq
        refine ⟨row, ?_, ?_, hb⟩
        · rw [← hi]
          exact List.mk_mem_enum_iff_getElem?.mp hmem
        · simp [cellBlank, ha, hv]
      · rw [if_neg hb] at heq
        exact absurd heq (by simp)

theorem collectTasks_nil_of_all_filled (table : List Row)
    (h : ∀ r ∈ table, cellBlank r.b = false) : collectTasks table = [] := by
  unfold collectTasks
  rw [List.filterMap_eq_nil_iff]
  rintro ⟨i, row⟩ hmem
  have hrow : row ∈ table :=
    mem_of_getElem?_some (List.mk_mem_enum_iff_getElem?.mp hmem)
  unfold taskOfRow
  rcases ha : row.a with _ | v
  · rfl
  · by_cases hv : pyTrim v = ""
    · simp [hv]
    · have hb := h row hrow
      simp [hv, hb]

theorem runGeminiLoop_skip_blankA (oracle : GenOracle) (jitter : Nat → ℚ)
    (retries : Nat) (i : Nat) (row : Row) (rest : List (Nat × Row))
    (t : List Row) (k : Nat) (ha : cellBlank row.a = true) :
    runGeminiLoop oracle jitter retries ((i, row) :: rest) (t, k) =
      runGeminiLoop oracle jitter retries rest (t, k) := by
  conv_lhs => unfold runGeminiLoop
  rw [if_pos ha]

theorem runGeminiLoop_skip_filled (oracle : GenOracle) (jitter : Nat → ℚ)
    (retries : Nat) (i : Nat) (row : Row) (rest : List (Nat × Row))
    (t : List Row) (k : Nat) (cur : Row) (hcur : t[i]? = some cur)
    (hb : cellBlank cur.b = false) :
    runGeminiLoop oracle jitter retries ((i, row) :: rest) (t, k) =
      runGeminiLoop oracle jitter retries rest (t, k) := by
  conv_lhs => unfold runGeminiLoop
  by_cases ha : cellBlank row.a = true
  · rw [if_pos ha]
  · rw [if_neg ha]
    split
    · rfl
    · rename_i cur2 hidx
      have he : cur2 = cur := by
        rw [hcur] at hidx
        exact (by simpa using hidx : cur = cur2).symm
      rw [if_pos (by simp [he, hb])]

theorem runGeminiLoop_preserve_filled (oracle : GenOracle) (jitter : Nat → ℚ)
    (retries : Nat) (i : Nat) (cur : Row) :
    ∀ (pairs : List (Nat × Row)) (t : List Row) (k : Nat),
      t[i]? = some cur → cellBlank cur.b = false →
      ((runGeminiLoop oracle jitter retries pairs (t, k)).1)[i]? = some cur
  | [], t, k, hcur, _ => by
    unfold runGeminiLoop
    exact hcur
  | (idx, row) :: rest, t, k, hcur, hb => by
    conv_lhs => unfold runGeminiLoop
    by_cases ha : cellBlank row.a = true
    · rw [if_pos ha]
      exact runGeminiLoop_preserve_filled oracle jitter retries i cur rest t k hcur hb
    · rw [if_neg ha]
      split
    
      · exact runGeminiLoop_preserve_filled oracle jitter retries i cur rest t k hcur hb
      · rename_i cur2 hidx
        by_cases hb2 : (!cellBlank cur2.b) = true
        · rw [if_pos hb2]
          exact runGeminiLoop_preserve_filled oracle jitter retries i cur rest t k hcur hb
        · rw [if_neg hb2]
          have hne : idx ≠ i := by
            intro he
            rw [he, hcur] at hidx
            have h3 : cur = cur2 := by simpa using hidx
            rw [← h3] at hb2
            simp [hb] at hb2
          exact runGeminiLoop_preserve_filled oracle jitter retries i cur rest _ _
            (by rw [List.getElem?_set_ne hne]; exact hcur) hb

theorem runGeminiLoop_preserve_blankA (oracle : GenOracle) (jitter : Nat → ℚ)
    (retries : Nat) (i : Nat) :
    ∀ (pairs : List (Nat × Row)) (t : List Row) (k : Nat),
      (∀ row2, (i, row2) ∈ pairs → cellBlank row2.a = true) →
      ((runGeminiLoop oracle jitter retries pairs (t, k)).1)[i]? = t[i]?
  | [], t, k, _ => by
    unfold runGeminiLoop
    rfl
  | (idx, row) :: rest, t, k, H => by
    conv_lhs => unfold runGeminiLoop
    by_cases ha : cellBlank row.a = true
    · rw [if_pos ha]
      exact runGeminiLoop_preserve_blankA oracle jitter retries i rest t k
        (fun row2 h2 => H row2 (by simp [h2]))
    · rw [if_neg ha]
      have hne : idx ≠ i := by
        intro he
        exact ha (H row (by rw [he]; exact List.mem_cons_self _ _))
      split
      · exact runGeminiLoop_preserve_blankA oracle jitter retries i rest t k
          (fun row2 h2 => H row2 (by simp [h2]))
      · rename_i cur2 hidx
        by_cases hb2 : (!cellBlank cur2.b) = true
        · rw [if_pos hb2]
          exact runGeminiLoop_preserve_blankA oracle jitter retries i rest t k
            (fun row2 h2 => H row2 (by simp [h2]))
        · rw [if_neg hb2]
          rw [runGeminiLoop_preserve_blankA oracle jitter retries i rest _ _
            (fun row2 h2 => H row2 (by simp [h2]))]
          rw [List.getElem?_set_ne hne]

theorem runGeminiLoop_id_of_filled (oracle : GenOracle) (jitter : Nat → ℚ)
    (retries : Nat) (t : List Row) :
    ∀ (pairs : List (Nat × Row)) (k : Nat),
      (∀ p ∈ pairs, ∀ cur, t[p.1]? = some cur → cellBlank cur.b = false) →
      runGeminiLoop oracle jitter retries pairs (t, k) = (t, k)
  | [], k, _ => by
    unfold runGeminiLoop
    rfl
  | (idx, row) :: rest, k, H => by
    conv_lhs => unfold runGeminiLoop
    by_cases ha : cellBlank row.a = true
    · rw [if_pos ha]
      exact runGeminiLoop_id_of_filled oracle jitter retries t rest k
        (fun p hp => H p (by simp [hp]))
    · rw [if_neg ha]
      split
      · exact runGeminiLoop_id_of_filled oracle jitter retries t rest k
          (fun p hp => H p (by simp [hp]))
      · rename_i cur2 hidx
        have hb2 : cellBlank cur2.b = false := H (idx, row) (by simp) cur2 hidx
        rw [if_pos (by simp [hb2])]
        exact runGeminiLoop_id_of_filled oracle jitter retries t rest k
          (fun p hp => H p (by simp [hp]))

theorem pyMin_eq_min (a b : ℚ) : pyMin a b = min a b := by
  unfold pyMin
  rw [min_def]

theorem backoff_mono (a : Nat) (ja jb : ℚ) (hja : ja ≤ 1) (hjb : 0 ≤ jb) :
    pyMin (2 ^ a + ja) 30 ≤ pyMin (2 ^ (a + 1) + jb) 30 := by
  rw [pyMin_eq_min, pyMin_eq_min]
  apply min_le_min _ le_rfl
  have h1 : (1 : ℚ) ≤ 2 ^ a := one_le_pow₀ (by norm_num)
  have h2 : (2 : ℚ) ^ (a + 1) = 2 ^ a + 2 ^ a := by
    rw [pow_succ]
    ring
  linarith

theorem callGeminiAux_all_transient (oracle : GenOracle) (jitter : Nat → ℚ)
    (prompt : String) :
    ∀ (fuel attempt k : Nat),
      (∀ j, j < fuel → ∃ e, oracle (k + j) prompt = .exn e ∧
        transient_gemini_msg (pyLower e) = true) →
      callGeminiAux oracle jitter prompt attempt k fuel =
        (.ok "ERROR: too many retries due to rate limits", k + fuel,
          (List.range fuel).map (fun j => pyMin (2 ^ (attempt + j) + jitter (k + j)) 30))
  | 0, attempt, k, _ => by
    unfold callGeminiAux
    simp
  | fuel + 1, attempt, k, H => by
    obtain ⟨e, he, htr⟩ := H 0 (by omega)
    rw [Nat.add_zero] at he
    conv_lhs => unfold callGeminiAux
    rw [he]
    show (if transient_gemini_msg (pyLower e) = true then
        (((callGeminiAux oracle jitter prompt (attempt + 1) (k + 1) fuel).1,
          (callGeminiAux oracle jitter prompt (attempt + 1) (k + 1) fuel).2.1,
          pyMin (2 ^ attempt + jitter k) 30 ::
            (callGeminiAux oracle jitter prompt (attempt + 1) (k + 1) fuel).2.2))
      else if blocked_gemini_msg (pyLower e) = true then
        (Except.ok "(blocked)", k + 1, [])
      else (Except.error e, k + 1, [])) =
      (Except.ok "ERROR: too many retries due to rate limits", k + (fuel + 1),
        (List.range (fuel + 1)).map (fun j => pyMin (2 ^ (attempt + j) + jitter (k + j)) 30))
    rw [if_pos htr]
    rw [callGeminiAux_all_transient oracle jitter prompt fuel (attempt + 1) (k + 1)
      (fun j hj => by
        obtain ⟨e2, he2, htr2⟩ := H (j + 1) (by omega)
        exact ⟨e2, by rw [show k + 1 + j = k + (j + 1) from by omega]; exact he2, htr2⟩)]
    show (Except.ok "ERROR: too many retries due to rate limits", k + 1 + fuel,
        pyMin (2 ^ attempt + jitter k) 30 ::
          (List.range fuel).map (fun j => pyMin (2 ^ (attempt + 1 + j) + jitter (k + 1 + j)) 30)) =
      (Except.ok "ERROR: too many retries due to rate limits", k + (fuel + 1),
        (List.range (fuel + 1)).map (fun j => pyMin (2 ^ (attempt + j) + jitter (k + j)) 30))
    refine congrArg₂ Prod.mk rfl (congrArg₂ Prod.mk (by omega) ?_)
    rw [List.range_succ_eq_map, List.map_cons, List.map_map]
    refine congrArg₂ List.cons ?_ ?_
    · exact congrArg₂ (fun x y => pyMin ((2 : ℚ) ^ x + jitter y) 30) (by omega) (by omega)
    · refine List.map_congr_left (fun j _ => ?_)
      exact congrArg₂ (fun x y => pyMin ((2 : ℚ) ^ x + jitter y) 30) (by omega) (by omega)

theorem isPySpace_not_digit (c : Char) (h : isPySpace c = true) :
    c.isDigit = false := by
  unfold isPySpace at h
  simp only [Bool.or_eq_true, decide_eq_true_eq] at h
  rcases h with ((((rfl | rfl) | rfl) | rfl) | rfl) | rfl <;> decide

theorem takeWhile_head_false {α : Type} (p : α → Bool) (d : α) (ds : List α)
    (h : p d = false) : (d :: ds).takeWhile p = [] := by
  simp [List.takeWhile_cons, h]

theorem dropWhile_head_false {α : Type} (p : α → Bool) (d : α) (ds : List α)
    (h : p d = false) : (d :: ds).dropWhile p = d :: ds := by
  simp [List.dropWhile_cons, h]

theorem isPrefixOf_self_true : ∀ (l : List Char), l.isPrefixOf l = true
  | [] => rfl
  | c :: cs => by
    simp [List.isPrefixOf, isPrefixOf_self_true cs]

theorem replaceAux_nil (pat repl : List Char) (fuel : Nat) :
    replaceAux pat repl fuel [] = [] := by
  cases fuel <;> rfl

theorem replaceAux_end (pat repl : List Char) (hpat : pat ≠ []) :
    ∀ (stem : List Char) (fuel : Nat),
      (∀ i, i < stem.length → pat.isPrefixOf ((stem ++ pat).drop i) = false) →
      (stem ++ pat).length ≤ fuel →
      replaceAux pat repl fuel (stem ++ pat) = stem ++ repl
  | [], fuel, _, hfuel => by
    rcases pat with _ | ⟨c, pat'⟩
    · exact absurd rfl hpat
    · rcases fuel with _ | f
      · simp at hfuel
      · show replaceAux (c :: pat') repl (f + 1) ([] ++ (c :: pat')) = [] ++ repl
        rw [List.nil_append, List.nil_append]
        conv_lhs => unfold replaceAux
        show (if (c :: pat').isPrefixOf (c :: pat') = true then
            repl ++ replaceAux (c :: pat') repl f ((c :: pat').drop (c :: pat').length)
          else c :: replaceAux (c :: pat') repl f pat') = repl
        rw [if_pos (isPrefixOf_self_true (c :: pat'))]
        rw [List.drop_length, replaceAux_nil]
        simp
  | c :: stem', fuel, H, hfuel => by
    rcases fuel with _ | f
    · simp at hfuel
    · have h0 : pat.isPrefixOf (c :: (stem' ++ pat)) = false := by
        simpa using H 0 (by simp)
      show replaceAux pat repl (f + 1) ((c :: stem') ++ pat) = (c :: stem') ++ repl
      rw [List.cons_append]
      conv_lhs => unfold replaceAux
      show (if pat.isPrefixOf (c :: (stem' ++ pat)) = true then
          repl ++ replaceAux pat repl f ((c :: (stem' ++ pat)).drop pat.length)
        else c :: replaceAux pat repl f (stem' ++ pat)) = c :: stem' ++ repl
      rw [if_neg (by simp [h0])]
      rw [replaceAux_end pat repl hpat stem' f
        (fun i hi => by
          have := H (i + 1) (by simpa using Nat.succ_lt_succ hi)
          simpa using this)
        (by simp at hfuel ⊢; omega)]
      rfl

theorem dictGet?_isSome_of_hasKey :
    ∀ (m : Dict) (j : Nat), dictHasKey m j = true → ∃ v, dictGet? m j = some v
  | [], j, h => by
    simp [dictHasKey] at h
  | q :: m, j, h => by
    by_cases hq : q.1 == j
    · refine ⟨q.2, ?_⟩
      unfold dictGet?
      rw [@List.find?_cons_of_pos _ (fun p : Nat × String => p.1 == j) q m hq]
      rfl
    · unfold dictHasKey at h
      simp only [List.any_cons, Bool.or_eq_true] at h
      rcases h with h | h
      · exact absurd h (by simpa using hq)
      · obtain ⟨v, hv⟩ := dictGet?_isSome_of_hasKey m j h
        refine ⟨v, ?_⟩
        unfold dictGet? at hv ⊢
        rw [List.find?_cons_of_neg _ (by simpa using hq)]
        exact hv

theorem parseLinesLoop_eq :
    ∀ (lines : List String) (acc : Dict),
      parseLinesLoop lines acc =
        (lines.filterMap (fun ln => (lineREMatch ln).map
          (fun p => (p.1, pyLower p.2)))).foldl (fun m p => dictInsert m p.1 p.2) acc
  | [], acc => rfl
  | line :: rest, acc => by
    unfold parseLinesLoop
    rcases hm : lineREMatch line with _ | ⟨ridx, label⟩
    · rw [List.filterMap_cons, hm]
      exact parseLinesLoop_eq rest acc
    · rw [List.filterMap_cons, hm]
      simp only [Option.map_some, List.foldl_cons]
      exact parseLinesLoop_eq rest (dictInsert acc ridx (pyLower label))

theorem dictHasKey_insert_ne (m : Dict) (k j : Nat) (v : String) (h : j ≠ k) :
    dictHasKey (dictInsert m k v) j = dictHasKey m j := by
  rcases hb : dictHasKey m j
  · apply Bool.eq_false_iff.mpr
    intro htrue
    rcases (dictHasKey_insert m k j v).mp htrue with h1 | h1
    · rw [hb] at h1
      exact Bool.false_ne_true h1
    · exact h h1
  · exact (dictHasKey_insert m k j v).mpr (Or.inl hb)

theorem fallbackLoop_spec (oracle : OaOracle) :
    ∀ (items : List (Nat × String × List String)) (parsed : Dict) (k : Nat),
      (items.map (fun it => it.1)).Nodup →
      ((fallbackLoop oracle items (parsed, k)).2 =
          k + (items.filter (fun it => !dictHasKey parsed it.1)).length) ∧
      (∀ x, x ∉ items.map (fun it => it.1) →
          dictGet? (fallbackLoop oracle items (parsed, k)).1 x = dictGet? parsed x) ∧
      (∀ it ∈ items, dictHasKey parsed it.1 = true →
          dictGet? (fallbackLoop oracle items (parsed, k)).1 it.1 = dictGet? parsed it.1) ∧
      (∀ it ∈ items, dictHasKey parsed it.1 = false →
          ∃ j, k ≤ j ∧ j < (fallbackLoop oracle items (parsed, k)).2 ∧
            ((∃ s k1, call_openai oracle (build_single_prompt it.2.1 it.2.2) j = .ok (s, k1) ∧
                dictGet? (fallbackLoop oracle items (parsed, k)).1 it.1 = some (clean_label s)) ∨
             (∃ e, call_openai oracle (build_single_prompt it.2.1 it.2.2) j = .error e ∧
                dictGet? (fallbackLoop oracle items (parsed, k)).1 it.1 = some ("ERROR: " ++ e))))
  | [], parsed, k, _ => by
    refine ⟨by simp [fallbackLoop], ?_, ?_, ?_⟩
    · intro x _
      rfl
    · intro it hit
      exact absurd hit (by simp)
    · intro it hit
      exact absurd hit (by simp)
  | (ridx, text, labels) :: rest, parsed, k, hnd => by
    have hnd2 : (rest.map (fun it => it.1)).Nodup := (List.nodup_cons.mp hnd).2
    have hridx : ridx ∉ rest.map (fun it => it.1) := (List.nodup_cons.mp hnd).1
    by_cases hk : dictHasKey parsed ridx = true
    · have hstep : fallbackLoop oracle ((ridx, text, labels) :: rest) (parsed, k) =
          fallbackLoop oracle rest (parsed, k) := by
        conv_lhs => unfold fallbackLoop
        rw [if_pos hk]
      obtain ⟨ih1, ih2, ih3, ih4⟩ := fallbackLoop_spec oracle rest parsed k hnd2
      rw [hstep]
      refine ⟨?_, ?_, ?_, ?_⟩
      · rw [ih1]
        have : (((ridx, text, labels) :: rest).filter
            (fun it => !dictHasKey parsed it.1)).length =
            (rest.filter (fun it => !dictHasKey parsed it.1)).length := by
          rw [List.filter_cons_of_neg (by simp [hk])]
        omega
      · intro x hx
        exact ih2 x (fun hx2 => hx (by simp [hx2]))
      · intro it hit hkey
        rcases List.mem_cons.mp hit with rfl | hit2
        · exact ih2 ridx hridx
        · exact ih3 it hit2 hkey
      · intro it hit hkey
        rcases List.mem_cons.mp hit with rfl | hit2
        · rw [hkey] at hk
          exact absurd hk (by simp)
        · exact ih4 it hit2 hkey
    · replace hk : dictHasKey parsed ridx = false := Bool.eq_false_iff.mpr hk
      rcases hcall : call_openai oracle (build_single_prompt text labels) k with e | ⟨out2, k1⟩
      · -- the single-row call raised: an error marker is stored
        have hstep : fallbackLoop oracle ((ridx, text, labels) :: rest) (parsed, k) =
            fallbackLoop oracle rest (dictInsert parsed ridx ("ERROR: " ++ e), k + 1) := by
          conv_lhs => unfold fallbackLoop
          rw [if_neg (by simp [hk]), hcall]
        obtain ⟨ih1, ih2, ih3, ih4⟩ := fallbackLoop_spec oracle rest
          (dictInsert parsed ridx ("ERROR: " ++ e)) (k + 1) hnd2
        have hcount : (rest.filter
            (fun it => !dictHasKey (dictInsert parsed ridx ("ERROR: " ++ e)) it.1)).length =
            (rest.filter (fun it => !dictHasKey parsed it.1)).length := by
          rw [List.filter_congr (fun it hit => by
            rw [dictHasKey_insert_ne parsed ridx it.1 _
              (fun he => hridx (he ▸ List.mem_map_of_mem (fun r => r.1) hit))])]
        rw [hstep]
        refine ⟨?_, ?_, ?_, ?_⟩
        · rw [ih1, hcount, List.filter_cons_of_pos (by simp [hk])]
          simp only [List.length_cons]
          omega
        · intro x hx
          have hxr : x ∉ rest.map (fun it => it.1) := fun h2 => hx (by simp [h2])
          have hxi : x ≠ ridx := fun h2 => hx (by simp [h2])
          rw [ih2 x hxr, dictGet?_insert_ne parsed ridx x _ hxi]
        · intro it hit hkey
          rcases List.mem_cons.mp hit with rfl | hit2
          · rw [hkey] at hk
            exact absurd hk (by simp)
          · have hne : it.1 ≠ ridx :=
              fun he => hridx (he ▸ List.mem_map_of_mem (fun r => r.1) hit2)
            rw [ih3 it hit2 (by rw [dictHasKey_insert_ne parsed ridx it.1 _ hne]; exact hkey),
              dictGet?_insert_ne parsed ridx it.1 _ hne]
        · intro it hit hkey
          rcases List.mem_cons.mp hit with rfl | hit2
          · refine ⟨k, le_refl k, ?_, Or.inr ⟨e, hcall, ?_⟩⟩
            · rw [ih1]
              omega
            · rw [ih2 ridx hridx, dictGet?_insert_self]
          · have hne : it.1 ≠ ridx :=
              fun he => hridx (he ▸ List.mem_map_of_mem (fun r => r.1) hit2)
            obtain ⟨j, hj1, hj2, hj3⟩ := ih4 it hit2
              (by rw [dictHasKey_insert_ne parsed ridx it.1 _ hne]; exact hkey)
            exact ⟨j, by omega, hj2, hj3⟩
      · -- the single-row call succeeded: the cleaned label is stored
        have hstep : fallbackLoop oracle ((ridx, text, labels) :: rest) (parsed, k) =
            fallbackLoop oracle rest (dictInsert parsed ridx (clean_label out2), k1) := by
          conv_lhs => unfold fallbackLoop
          rw [if_neg (by simp [hk]), hcall]
        have hk1 : k1 = k + 1 := by
          unfold call_openai at hcall
          rcases horc : oracle k (build_single_prompt text labels) with ⟨t, pieces⟩ | ⟨e⟩
          · rw [horc] at hcall
            have h2 := congrArg (fun x : Except String (String × Nat) =>
              match x with | .ok u => u.2 | .error _ => 0) hcall
            exact h2.symm
          · rw [horc] at hcall
            exact absurd hcall (by simp)
        obtain ⟨ih1, ih2, ih3, ih4⟩ := fallbackLoop_spec oracle rest
          (dictInsert parsed ridx (clean_label out2)) k1 hnd2
        have hcount : (rest.filter
            (fun it => !dictHasKey (dictInsert parsed ridx (clean_label out2)) it.1)).length =
            (rest.filter (fun it => !dictHasKey parsed it.1)).length := by
          rw [List.filter_congr (fun it hit => by
            rw [dictHasKey_insert_ne parsed ridx it.1 _
              (fun he => hridx (he ▸ List.mem_map_of_mem (fun r => r.1) hit))])]
        rw [hstep]
        refine ⟨?_, ?_, ?_, ?_⟩
        · rw [ih1, hcount, List.filter_cons_of_pos (by simp [hk]), hk1]
          simp only [List.length_cons]
          omega
        · intro x hx
          have hxr : x ∉ rest.map (fun it => it.1) := fun h2 => hx (by simp [h2])
          have hxi : x ≠ ridx := fun h2 => hx (by simp [h2])
          rw [ih2 x hxr, dictGet?_insert_ne parsed ridx x _ hxi]
        · intro it hit hkey
          rcases List.mem_cons.mp hit with rfl | hit2
          · rw [hkey] at hk
            exact absurd hk (by simp)
          · have hne : it.1 ≠ ridx :=
              fun he => hridx (he ▸ List.mem_map_of_mem (fun r => r.1) hit2)
            rw [ih3 it hit2 (by rw [dictHasKey_insert_ne parsed ridx it.1 _ hne]; exact hkey),
              dictGet?_insert_ne parsed ridx it.1 _ hne]
        · intro it hit hkey
          rcases List.mem_cons.mp hit with rfl | hit2
          · refine ⟨k, le_refl k, ?_, Or.inl ⟨out2, k1, hcall, ?_⟩⟩
            · rw [ih1, hk1]
              omega
            · rw [ih2 ridx hridx, dictGet?_insert_self]
          · have hne : it.1 ≠ ridx :=
              fun he => hridx (he ▸ List.mem_map_of_mem (fun r => r.1) hit2)
            obtain ⟨j, hj1, hj2, hj3⟩ := ih4 it hit2
              (by rw [dictHasKey_insert_ne parsed ridx it.1 _ hne]; exact hkey)
            exact ⟨j, by omega, hj2, hj3⟩

theorem not_task_of_filled (table : List Row) (i : Nat) (row : Row)
    (hrow : table[i]? = some row) (hpre : cellBlank row.b = false) :
    i ∉ (collectTasks table).map (fun it => it.1) := by
  intro hmem
  obtain ⟨it, hit, hfst⟩ := List.mem_map.mp hmem
  obtain ⟨row2, hr2, _, hb2⟩ := collectTasks_sound table it.1 it.2.1 it.2.2 hit
  rw [hfst, hrow] at hr2
  have : row = row2 := by simpa using hr2
  rw [← this] at hb2
  rw [hb2] at hpre
  exact Bool.false_ne_true hpre.symm

theorem not_task_of_blankA (table : List Row) (i : Nat) (row : Row)
    (hrow : table[i]? = some row) (ha : cellBlank row.a = true) :
    i ∉ (collectTasks table).map (fun it => it.1) := by
  intro hmem
  obtain ⟨it, hit, hfst⟩ := List.mem_map.mp hmem
  obtain ⟨row2, hr2, ha2, _⟩ := collectTasks_sound table it.1 it.2.1 it.2.2 hit
  rw [hfst, hrow] at hr2
  have : row = row2 := by simpa using hr2
  rw [← this] at ha2
  rw [ha2] at ha
  exact Bool.false_ne_true ha

theorem beq_eq_decide_str (a b : String) : (a == b) = decide (a = b) := by
  rcases h : decide (a = b)
  · simp at h
    simpa using h
  · simp at h
    simp [h]

theorem filter_filter_bool {α : Type} (p q : α → Bool) :
    ∀ (l : List α), (l.filter p).filter q = l.filter (fun a => p a && q a)
  | [] => rfl
  | x :: xs => by
    rcases hp : p x
    · simp [List.filter_cons, hp, filter_filter_bool p q xs]
    · rcases hq : q x
      · simp [List.filter_cons, hp, hq, filter_filter_bool p q xs]
      · simp [List.filter_cons, hp, hq, filter_filter_bool p q xs]

theorem filter_not_contains_nil {α : Type} [BEq α] :
    ∀ (l : List α), l.filter (fun x => !(([] : List α).contains x)) = l
  | [] => rfl
  | x :: xs => by
    simp [List.filter_cons, filter_not_contains_nil xs]

theorem dedupeAux_eq_firstSeenAux :
    ∀ (ys seen : List String) (fuel : Nat), ys.length ≤ fuel →
      dedupeAux seen ys =
        firstSeenAux fuel ((ys.map pyLower).filter (fun x => !(seen.contains x)))
  | [], seen, fuel, _ => by
    cases fuel <;> rfl
  | lab :: rest, seen, fuel, hfuel => by
    rcases hc : seen.contains (pyLower lab)
    · -- fresh lowercased label: it is kept
      rcases fuel with _ | f
      · simp at hfuel
      · have hstep : dedupeAux seen (lab :: rest) =
            pyLower lab :: dedupeAux (pyLower lab :: seen) rest := by
          conv_lhs => unfold dedupeAux
          rw [if_neg (by rw [hc]; exact Bool.false_ne_true)]
        rw [hstep]
        rw [List.map_cons, List.filter_cons_of_pos (by rw [hc]; rfl)]
        show pyLower lab :: dedupeAux (pyLower lab :: seen) rest =
          pyLower lab :: firstSeenAux f
            (((rest.map pyLower).filter (fun x => !(seen.contains x))).filter
              (fun y => y != pyLower lab))
        rw [filter_filter_bool]
        rw [List.filter_congr (fun a _ => by
          show (!(seen.contains a) && (a != pyLower lab)) =
            !((pyLower lab :: seen).contains a)
          simp [List.contains_cons, Bool.not_or, Bool.and_comm, bne, beq_eq_decide_str])]
        rw [dedupeAux_eq_firstSeenAux rest (pyLower lab :: seen) f (by simp at hfuel; omega)]
    · -- already seen (case-insensitively): dropped
      have hstep : dedupeAux seen (lab :: rest) = dedupeAux seen rest := by
        conv_lhs => unfold dedupeAux
        rw [if_pos hc]
      rw [hstep]
      rw [List.map_cons, List.filter_cons_of_neg (by rw [hc]; simp)]
      exact dedupeAux_eq_firstSeenAux rest seen fuel (by simp at hfuel ⊢; omega)

theorem extract_labels_eq (text : String) :
    extract_labels text = if (findAnsTokens text).isEmpty then ["ans0", "ans1", "ans2"]
      else firstSeen ((findAnsTokens text).map pyLower) := by
  show (if (dedupeAux [] (findAnsTokens text)).isEmpty then ["ans0", "ans1", "ans2"]
    else dedupeAux [] (findAnsTokens text)) = _
  have h := dedupeAux_eq_firstSeenAux (findAnsTokens text) [] (findAnsTokens text).length
    le_rfl
  rw [filter_not_contains_nil] at h
  rcases htoks : findAnsTokens text with _ | ⟨t, ts⟩
  · rfl
  · rw [htoks] at h
    have hlen : (t :: ts).length = ((t :: ts).map pyLower).length := by
      rw [List.length_map]
    rw [hlen] at h
    have h2 : dedupeAux [] (t :: ts) = firstSeen ((t :: ts).map pyLower) := h
    rw [h2]
    have h3 : firstSeen ((t :: ts).map pyLower) =
        pyLower t :: firstSeenAux ts.length ((ts.map pyLower).filter (fun y => y != pyLower t)) := by
      show firstSeenAux ((t :: ts).map pyLower).length ((t :: ts).map pyLower) = _
      rw [List.map_cons]
      show firstSeenAux (ts.map pyLower).length.succ (pyLower t :: ts.map pyLower) = _
      rw [show (ts.map pyLower).length = ts.length from List.length_map ts pyLower]
      rfl
    rw [h3]
    rfl

theorem grammar_of_lineREMatch (l : String) (i : Nat) (lab : String)
    (h : lineREMatch l = some (i, lab)) : LineGrammar l i lab := by
  unfold lineREMatch at h
  split at h
  · next c1 c2 c3 rest heq =>
    split at h
    · next hguard =>
      simp only [] at h
      split at h
      · exact absurd h (by simp)
      · next hds =>
        split at h
        · exact absurd h (by simp)
        · next hsp =>
          split at h
          · next a n s r3 heq2 =>
            split at h
            · next hans =>
              split at h
              · exact absurd h (by simp)
              · next hds2 =>
                split at h
                · next hall =>
                  simp only [Bool.and_eq_true, Bool.or_eq_true, decide_eq_true_eq] at hguard hans
                  obtain ⟨⟨hc1, hc2⟩, hc3⟩ := hguard
                  obtain ⟨⟨ha, hn⟩, hs⟩ := hans
                  have hx := Option.some.inj h
                  have hi : digitsToNat (rest.takeWhile Char.isDigit) = i :=
                    congrArg Prod.fst hx
                  have hlab : String.mk (a :: n :: s :: r3.takeWhile Char.isDigit) = lab :=
                    congrArg Prod.snd hx
                  refine ⟨l.data.takeWhile isPySpace, c1, c2, rest.takeWhile Char.isDigit,
                    (rest.dropWhile Char.isDigit).takeWhile isPySpace, a, n, s,
                    r3.takeWhile Char.isDigit, r3.dropWhile Char.isDigit,
                    ?_, ?_, hc1, hc2, ?_, ?_, ?_, ?_, ha, hn, hs, ?_, ?_, ?_, hi.symm, hlab.symm⟩
                  · conv_lhs => rw [← List.takeWhile_append_dropWhile isPySpace l.data]
                    rw [heq, hc3]
                    conv_lhs => rw [show rest = rest.takeWhile Char.isDigit ++
                      rest.dropWhile Char.isDigit from
                        (List.takeWhile_append_dropWhile Char.isDigit rest).symm]
                    conv_lhs => rw [show rest.dropWhile Char.isDigit =
                      (rest.dropWhile Char.isDigit).takeWhile isPySpace ++
                        (rest.dropWhile Char.isDigit).dropWhile isPySpace from
                        (List.takeWhile_append_dropWhile isPySpace _).symm]
                    rw [heq2]
                    conv_lhs => rw [show r3 = r3.takeWhile Char.isDigit ++
                      r3.dropWhile Char.isDigit from
                        (List.takeWhile_append_dropWhile Char.isDigit r3).symm]
                    simp [List.append_assoc]
                  · exact fun c hc => List.mem_takeWhile_imp hc
                  · intro hnil
                    exact hds (by rw [hnil]; rfl)
                  · exact fun c hc => List.mem_takeWhile_imp hc
                  · intro hnil
                    exact hsp (by rw [hnil]; rfl)
                  · exact fun c hc => List.mem_takeWhile_imp hc
                  · intro hnil
                    exact hds2 (by rw [hnil]; rfl)
                  · exact fun c hc => List.mem_takeWhile_imp hc
                  · exact fun c hc => List.all_eq_true.mp hall c hc
                · exact absurd h (by simp)
            · exact absurd h (by simp)
          · exact absurd h (by simp)
    · exact absurd h (by simp)
  · exact absurd h (by simp)

theorem takeWhile_split {α : Type} (p : α → Bool) (xs : List α) (y : α) (ys : List α)
    (hxs : ∀ a ∈ xs, p a = true) (hy : p y = false) :
    (xs ++ y :: ys).takeWhile p = xs ∧ (xs ++ y :: ys).dropWhile p = y :: ys := by
  constructor
  · rw [takeWhile_all_append p xs _ hxs, takeWhile_head_false p y ys hy, List.append_nil]
  · rw [dropWhile_all_append p xs _ hxs, dropWhile_head_false p y ys hy]

theorem takeWhile_split_end {α : Type} (p : α → Bool) (xs ws : List α)
    (hxs : ∀ a ∈ xs, p a = true) (hws : ∀ a ∈ ws, p a = false) :
    (xs ++ ws).takeWhile p = xs ∧ (xs ++ ws).dropWhile p = ws := by
  constructor
  · rw [takeWhile_all_append p xs _ hxs]
    rcases ws with _ | ⟨z, zt⟩
    · simp
    · rw [takeWhile_head_false p z zt (hws z (by simp)), List.append_nil]
  · rw [dropWhile_all_append p xs _ hxs]
    rcases ws with _ | ⟨z, zt⟩
    · rfl
    · exact dropWhile_head_false p z zt (hws z (by simp))

theorem lineREMatch_of_grammar (l : String) (i : Nat) (lab : String)
    (h : LineGrammar l i lab) : lineREMatch l = some (i, lab) := by
  obtain ⟨w1, c1, c2, ds, w2, a, n, s, ds2, w3, heq, hw1, hc1, hc2, hds, hdsd, hw2,
    hw2s, ha, hn, hs, hds2, hds2d, hw3, hi, hlab⟩ := h
  have hc1sp : isPySpace c1 = false := by rcases hc1 with rfl | rfl <;> decide
  have hasp : isPySpace a = false := by rcases ha with rfl | rfl <;> decide
  obtain ⟨y, w2t, rfl⟩ := List.exists_cons_of_ne_nil hw2
  have hysp : isPySpace y = true := hw2s y (by simp)
  have hyd : Char.isDigit y = false := isPySpace_not_digit y hysp
  have hdsE : ds.isEmpty = false := by
    rcases ds with _ | _
    · exact absurd rfl hds
    · rfl
  have hds2E : ds2.isEmpty = false := by
    rcases ds2 with _ | _
    · exact absurd rfl hds2
    · rfl
  have heqr : l.data = w1 ++ (c1 :: c2 :: '=' ::
      (ds ++ y :: (w2t ++ a :: n :: s :: (ds2 ++ w3)))) := by
    rw [heq]
    simp [List.append_assoc]
  have hdrop : l.data.dropWhile isPySpace = c1 :: c2 :: '=' ::
      (ds ++ y :: (w2t ++ a :: n :: s :: (ds2 ++ w3))) := by
    rw [heqr, dropWhile_all_append isPySpace w1 _ hw1,
      dropWhile_head_false isPySpace c1 _ hc1sp]
  have hguard : ((decide (c1 = 'I') || decide (c1 = 'i')) &&
      (decide (c2 = 'D') || decide (c2 = 'd')) && decide ('=' = '=')) = true := by
    rcases hc1 with rfl | rfl <;> rcases hc2 with rfl | rfl <;> decide
  have hguard2 : ((decide (a = 'a') || decide (a = 'A')) &&
      (decide (n = 'n') || decide (n = 'N')) &&
      (decide (s = 's') || decide (s = 'S'))) = true := by
    rcases ha with rfl | rfl <;> rcases hn with rfl | rfl <;>
      rcases hs with rfl | rfl <;> decide
  obtain ⟨hsplit1t, hsplit1d⟩ := takeWhile_split Char.isDigit ds y
    (w2t ++ a :: n :: s :: (ds2 ++ w3)) hdsd hyd
  obtain ⟨hsplit3t, hsplit3d⟩ := takeWhile_split_end Char.isDigit ds2 w3 hds2d
    (fun c hc => isPySpace_not_digit c (hw3 c hc))
  conv_lhs => unfold lineREMatch
  rw [hdrop]
  show (if ((decide (c1 = 'I') || decide (c1 = 'i')) &&
        (decide (c2 = 'D') || decide (c2 = 'd')) && decide ('=' = '=')) = true then
      if (List.takeWhile Char.isDigit (ds ++ y :: (w2t ++ a :: n :: s :: (ds2 ++ w3)))).isEmpty = true
        then none
      else
        if (List.takeWhile isPySpace (List.dropWhile Char.isDigit
            (ds ++ y :: (w2t ++ a :: n :: s :: (ds2 ++ w3))))).isEmpty = true then none
        else
          match List.dropWhile isPySpace (List.dropWhile Char.isDigit
              (ds ++ y :: (w2t ++ a :: n :: s :: (ds2 ++ w3)))) with
          | a2 :: n2 :: s2 :: r3 =>
            if ((decide (a2 = 'a') || decide (a2 = 'A')) &&
                (decide (n2 = 'n') || decide (n2 = 'N')) &&
                (decide (s2 = 's') || decide (s2 = 'S'))) = true then
              if (List.takeWhile Char.isDigit r3).isEmpty = true then none
              else if (List.dropWhile Char.isDigit r3).all isPySpace = true then
                some (digitsToNat (List.takeWhile Char.isDigit
                  (ds ++ y :: (w2t ++ a :: n :: s :: (ds2 ++ w3)))),
                  String.mk (a2 :: n2 :: s2 :: List.takeWhile Char.isDigit r3))
              else none
            else none
          | _ => none
    else none) = some (i, lab)
  rw [if_pos hguard, hsplit1t, hsplit1d]
  rw [if_neg (by rw [hdsE]; simp)]
  have hshape : (y :: (w2t ++ a :: n :: s :: (ds2 ++ w3))) =
      (y :: w2t) ++ (a :: n :: s :: (ds2 ++ w3)) := by simp
  rw [hshape]
  obtain ⟨hsplit2t, hsplit2d⟩ := takeWhile_split isPySpace (y :: w2t) a
    (n :: s :: (ds2 ++ w3)) hw2s hasp
  rw [hsplit2t, hsplit2d]
  rw [if_neg (by simp)]
  show (if ((decide (a = 'a') || decide (a = 'A')) &&
      (decide (n = 'n') || decide (n = 'N')) &&
      (decide (s = 's') || decide (s = 'S'))) = true then
      if (List.takeWhile Char.isDigit (ds2 ++ w3)).isEmpty = true then none
      else if (List.dropWhile Char.isDigit (ds2 ++ w3)).all isPySpace = true then
        some (digitsToNat ds, String.mk (a :: n :: s :: List.takeWhile Char.isDigit (ds2 ++ w3)))
      else none
    else none) = some (i, lab)
  rw [if_pos hguard2, hsplit3t, hsplit3d]
  rw [if_neg (by rw [hds2E]; simp)]
  rw [if_pos (List.all_eq_true.mpr hw3)]
  rw [hi, hlab]

/-!
## Claim theorems
-/

/-- Claim C4 — Backoff bounds: when every attempt of `call_gemini_safe`
fails with a transient (rate-limit/quota) error and the jitter samples
lie in `[0, 1]`, the wrapper performs exactly the configured number of
attempts (`retries`, default 6), sleeps `min(30, 2^attempt + jitter)`
seconds after each transient failure, the sleep durations are
non-decreasing up to the 30-second cap, and the wrapper returns the
distinguishable "too many retries" sentinel string instead of raising. -/
theorem backoff_bounds (oracle : GenOracle) (jitter : Nat → ℚ) (prompt : String)
    (retries : Nat)
    (hj : ∀ j, 0 ≤ jitter j ∧ jitter j ≤ 1)
    (htr : ∀ j p, ∃ e, oracle j p = .exn e ∧ transient_gemini_msg (pyLower e) = true) :
    call_gemini_safe oracle jitter prompt 0 retries =
      (.ok "ERROR: too many retries due to rate limits", retries,
        (List.range retries).map (fun j => pyMin (2 ^ j + jitter j) 30)) ∧
    List.Chain' (fun x y => x ≤ y)
      ((call_gemini_safe oracle jitter prompt 0 retries).2.2) := by
  have hmain2 : call_gemini_safe oracle jitter prompt 0 retries =
      (.ok "ERROR: too many retries due to rate limits", retries,
        (List.range retries).map (fun j => pyMin (2 ^ j + jitter j) 30)) := by
    have hmain := callGeminiAux_all_transient oracle jitter prompt retries 0 0
      (fun j _ => htr (0 + j) prompt)
    unfold call_gemini_safe
    rw [hmain]
    refine congrArg₂ Prod.mk rfl (congrArg₂ Prod.mk (by omega) ?_)
    exact List.map_congr_left (fun j _ =>
      congrArg₂ (fun x y => pyMin ((2 : ℚ) ^ x + jitter y) 30) (by omega) (by omega))
  refine ⟨hmain2, ?_⟩
  rw [hmain2]
  show List.Chain' (fun x y => x ≤ y)
    ((List.range retries).map (fun j => pyMin (2 ^ j + jitter j) 30))
  rw [List.chain'_map]
  rcases retries with _ | m
  · simp
  · rw [List.chain'_range_succ]
    intro m2 _
    exact backoff_mono m2 (jitter m2) (jitter (m2 + 1)) (hj m2).2 (hj (m2 + 1)).1

/-- Witness for `backoff_bounds`: six transient failures in a row. -/
theorem backoff_bounds_witness :
    call_gemini_safe (fun _ _ => GenOutcome.exn "429") (fun _ => (0 : ℚ)) "p" 0 6 =
      (.ok "ERROR: too many retries due to rate limits", 6,
        (List.range 6).map (fun j => pyMin (2 ^ j + (0 : ℚ)) 30)) ∧
    List.Chain' (fun x y => x ≤ y)
      ((call_gemini_safe (fun _ _ => GenOutcome.exn "429")
        (fun _ => (0 : ℚ)) "p" 0 6).2.2) :=
  backoff_bounds (fun _ _ => GenOutcome.exn "429") (fun _ => (0 : ℚ)) "p" 6
    (fun _ => ⟨le_refl 0, zero_le_one⟩)
    (fun _ _ => ⟨"429", rfl, by decide⟩)

/-- Claim C5, amended — Error routing with transient precedence: on an
error whose message matches no transient marker, the wrapper makes
exactly one call and no sleep; if the message indicates a safety/content
block it returns the "(blocked)" sentinel, otherwise the error propagates
to the caller.  (The amendment: the transient-marker check runs first, so
a message matching both a transient marker and a safety marker is
retried, not blocked — see the counterexample.) -/
theorem error_routing_guarded (oracle : GenOracle) (jitter : Nat → ℚ)
    (prompt : String) (k retries : Nat) (e : String) (hr : 1 ≤ retries)
    (he : oracle k prompt = .exn e)
    (htr : transient_gemini_msg (pyLower e) = false) :
    (blocked_gemini_msg (pyLower e) = true →
      call_gemini_safe oracle jitter prompt k retries = (.ok "(blocked)", k + 1, [])) ∧
    (blocked_gemini_msg (pyLower e) = false →
      call_gemini_safe oracle jitter prompt k retries = (.error e, k + 1, [])) := by
  rcases retries with _ | f
  · omega
  · have hred : call_gemini_safe oracle jitter prompt k (f + 1) =
        (if transient_gemini_msg (pyLower e) = true then
          ((callGeminiAux oracle jitter prompt (0 + 1) (k + 1) f).1,
            (callGeminiAux oracle jitter prompt (0 + 1) (k + 1) f).2.1,
            pyMin (2 ^ 0 + jitter k) 30 ::
              (callGeminiAux oracle jitter prompt (0 + 1) (k + 1) f).2.2)
        else if blocked_gemini_msg (pyLower e) = true then (.ok "(blocked)", k + 1, [])
        else (.error e, k + 1, [])) := by
      unfold call_gemini_safe
      conv_lhs => unfold callGeminiAux
      rw [he]
    constructor
    · intro hb
      rw [hred, if_neg (by rw [htr]; simp), if_pos hb]
    · intro hb
      rw [hred, if_neg (by rw [htr]; simp), if_neg (by rw [hb]; simp)]

/-- Witness for `error_routing_guarded`: a non-transient, non-blocked
error message propagates after one call. -/
theorem error_routing_guarded_witness :
    call_gemini_safe (fun _ _ => GenOutcome.exn "permission denied")
      (fun _ => (0 : ℚ)) "p" 0 6 = (.error "permission denied", 1, []) :=
  (error_routing_guarded (fun _ _ => GenOutcome.exn "permission denied")
    (fun _ => (0 : ℚ)) "p" 0 6 "permission denied" (by omega) rfl (by decide)).2
    (by decide)

/-- Counterexample to claim C5 — an error message that matches both a
transient marker ("quota") and a safety marker ("safety") is retried to
exhaustion and yields the retry sentinel, not the "(blocked)" sentinel
with no retry as the claim states. -/
theorem error_routing_claim_false :
    blocked_gemini_msg (pyLower "quota safety") = true ∧
    (call_gemini_safe (fun _ _ => GenOutcome.exn "quota safety")
      (fun _ => (0 : ℚ)) "p" 0 6).1 = .ok "ERROR: too many retries due to rate limits" ∧
    (call_gemini_safe (fun _ _ => GenOutcome.exn "quota safety")
      (fun _ => (0 : ℚ)) "p" 0 6).2.1 = 6 := by
  refine ⟨by decide, by decide, by decide⟩

/-- Claim C7 — Label extractor: for every input string, `extract_labels`
returns the matched `ans`-number tokens lowercased, deduplicated
case-insensitively keeping first occurrences in first-seen order, and the
fixed default vocabulary when no token matches; in particular a text
containing `ans2` then `ans0` with repeats in mixed case yields
`["ans2", "ans0"]`.  It is a pure function of the input string. -/
theorem label_extractor_spec :
    (∀ text : String, extract_labels text =
      if (findAnsTokens text).isEmpty then ["ans0", "ans1", "ans2"]
      else firstSeen ((findAnsTokens text).map pyLower)) ∧
    extract_labels "intro ans2 mid ANS2 Ans0 again ans2 ans0 end" = ["ans2", "ans0"] ∧
    extract_labels "no matching token here" = ["ans0", "ans1", "ans2"] :=
  ⟨extract_labels_eq, by decide, by decide⟩

/-- Claim C9, amended — Output path derivation: the saved path is obtained
by Python `str.replace`, substituting every occurrence of `".xlsx"`.  For
an input path whose only occurrence of `".xlsx"` is its final extension,
this inserts `_with_results` (resp. `_with_answers`) before the
extension, producing a path distinct from the input; a path that does not
contain `".xlsx"` at all is mapped to itself (so the save then rewrites
the input location — see the counterexample). -/
theorem out_path_spec (stem : List Char)
    (H : ∀ i, i < stem.length →
      (".xlsx".data).isPrefixOf ((stem ++ ".xlsx".data).drop i) = false) :
    (out_path_results (String.mk (stem ++ ".xlsx".data)) =
        String.mk (stem ++ "_with_results.xlsx".data) ∧
      out_path_results (String.mk (stem ++ ".xlsx".data)) ≠
        String.mk (stem ++ ".xlsx".data)) ∧
    (out_path_answers (String.mk (stem ++ ".xlsx".data)) =
        String.mk (stem ++ "_with_answers.xlsx".data) ∧
      out_path_answers (String.mk (stem ++ ".xlsx".data)) ≠
        String.mk (stem ++ ".xlsx".data)) := by
  have hres : out_path_results (String.mk (stem ++ ".xlsx".data)) =
      String.mk (stem ++ "_with_results.xlsx".data) := by
    unfold out_path_results pyReplace
    exact congrArg String.mk (replaceAux_end (".xlsx".data) ("_with_results.xlsx".data)
      (by decide) stem (stem ++ ".xlsx".data).length H le_rfl)
  have hans : out_path_answers (String.mk (stem ++ ".xlsx".data)) =
      String.mk (stem ++ "_with_answers.xlsx".data) := by
    unfold out_path_answers pyReplace
    exact congrArg String.mk (replaceAux_end (".xlsx".data) ("_with_answers.xlsx".data)
      (by decide) stem (stem ++ ".xlsx".data).length H le_rfl)
  refine ⟨⟨hres, ?_⟩, ⟨hans, ?_⟩⟩
  · rw [hres]
    intro hcontra
    have := congrArg (fun x : String => x.data.length) hcontra
    simp at this
  · rw [hans]
    intro hcontra
    have := congrArg (fun x : String => x.data.length) hcontra
    simp at this

/-- Witness for `out_path_spec` at the stem `"data"`. -/
theorem out_path_spec_witness :
    (out_path_results "data.xlsx" = "data_with_results.xlsx" ∧
      out_path_results "data.xlsx" ≠ "data.xlsx") ∧
    (out_path_answers "data.xlsx" = "data_with_answers.xlsx" ∧
      out_path_answers "data.xlsx" ≠ "data.xlsx") :=
  out_path_spec "data".data (by decide)

/-- Counterexample to claim C9 — a path that does not end in `".xlsx"` is
mapped to itself (the "new location distinct from the input" part of the
claim fails), and a path with several `".xlsx"` occurrences is rewritten
at every occurrence, not only before the extension. -/
theorem out_path_claim_false :
    out_path_results "data.xls" = "data.xls" ∧
    out_path_answers "data.xls" = "data.xls" ∧
    out_path_results "a.xlsx.xlsx" = "a_with_results.xlsx_with_results.xlsx" := by
  refine ⟨by decide, by decide, by decide⟩

/-- Claim C10 — Single-row result cleanup: the value stored by the
`classify_batch` fallback (and by the single-row classifier's cleanup) is
the first `ans`-number token of the response lowercased when one occurs,
and otherwise the raw trimmed response text itself; hence a response with
no token puts a value outside the row's permissible vocabulary into the
output cell, as the concrete pipeline run shows. -/
theorem raw_cleanup_spec :
    (∀ str : String, findAnsTokens str = [] → clean_label str = pyTrim str) ∧
    (∀ str t ts, findAnsTokens str = t :: ts → clean_label str = pyLower t) ∧
    (runPipeline (fun k _ => if k = 0 then OaOutcome.resp (some "") []
        else OaOutcome.resp (some "I think it is B") []) 10
        [⟨some "q", none⟩] =
      .ok ([⟨some "q", some "I think it is B"⟩], 2) ∧
      (extract_labels "q").contains "I think it is B" = false) := by
  refine ⟨?_, ?_, by decide, by decide⟩
  · intro str hnone
    unfold clean_label
    rw [hnone]
    rfl
  · intro str t ts hcons
    unfold clean_label
    rw [hcons]
    rfl

/-- Witness for `raw_cleanup_spec`: a token-free response is stored
trimmed and raw; a response with a token is stored as that token
lowercased. -/
theorem raw_cleanup_spec_witness :
    clean_label "no token at all" = pyTrim "no token at all" ∧
    clean_label "surely Ans2 wins" = pyLower "Ans2" :=
  ⟨raw_cleanup_spec.1 "no token at all" (by decide),
    raw_cleanup_spec.2.1 "surely Ans2 wins" "Ans2" [] (by decide)⟩

/-- Claim C2, amended — Never-overwrite under in-contract responses: writes
target only row identifiers parsed from a batch response or dispatched in
the fallback; therefore, provided every identifier parsed out of a remote
response is one of the run's dispatched task identifiers, a row whose
output cell is non-blank before the run holds exactly the same value in
the final table.  (Without that proviso a batch response naming a
pre-filled row's identifier overwrites its cell — see the
counterexample.) -/
theorem never_overwrite_guarded (oracle : OaOracle) (bs : Nat) (table t2 : List Row)
    (k2 i : Nat) (row : Row)
    (Hor : ∀ k p s k1, call_openai oracle p k = .ok (s, k1) →
      ∀ j ∈ dictKeys (parse_batch_output s),
        j ∈ (collectTasks table).map (fun it => it.1))
    (hrow : table[i]? = some row) (hpre : cellBlank row.b = false)
    (hrun : runPipeline oracle bs table = .ok (t2, k2)) :
    t2[i]? = some row := by
  have hnot : i ∉ (collectTasks table).map (fun it => it.1) :=
    not_task_of_filled table i row hrow hpre
  have H : ∀ b ∈ chunked (collectTasks table) bs, ∀ k0 res k1,
      classify_batch oracle b k0 = .ok (res, k1) → ∀ p ∈ res, p.1 ≠ i := by
    intro b hb k0 res k1 hcls p hp
    rcases classify_batch_targets oracle b k0 res k1 hcls p hp with
      ⟨s, kk, hcall, hkey⟩ | hbid
    · intro he
      exact hnot (he ▸ Hor k0 (build_batch_prompt b) s kk hcall p.1 hkey)
    · intro he
      apply hnot
      rw [← he]
      obtain ⟨it, hit, hfst⟩ := List.mem_map.mp hbid
      rw [← hfst]
      exact List.mem_map_of_mem (fun it => it.1)
        (chunked_subset (collectTasks table) bs b it hb hit)
  have hpres := runBatches_preserve oracle i (chunked (collectTasks table) bs)
    table 0 t2 k2 H hrun
  rw [hpres]
  exact hrow

/-- Witness for `never_overwrite_guarded`: a run whose responses parse to
no identifier at all leaves the pre-filled second row unchanged. -/
theorem never_overwrite_guarded_witness :
    (([⟨some "q", some "ans0"⟩, ⟨some "x", some "prior"⟩] : List Row))[1]? =
      some ⟨some "x", some "prior"⟩ :=
  never_overwrite_guarded (fun _ _ => OaOutcome.resp (some "ans0") []) 10
    [⟨some "q", none⟩, ⟨some "x", some "prior"⟩]
    [⟨some "q", some "ans0"⟩, ⟨some "x", some "prior"⟩] 2 1 ⟨some "x", some "prior"⟩
    (by
      intro k p s k1 hok j hj
      have h2 : (Except.ok (pyTrim "ans0", k + 1) : Except String (String × Nat)) =
          .ok (s, k1) := hok
      have h3 : pyTrim "ans0" = s :=
        congrArg (fun x : Except String (String × Nat) =>
          match x with | .ok u => u.1 | .error _ => "") h2
      rw [← h3] at hj
      rw [show parse_batch_output (pyTrim "ans0") = [] from by decide] at hj
      exact absurd hj (by simp [dictKeys]))
    (by decide) (by decide) (by decide)

/-- Counterexample to claim C2 — a batch response that names the pre-filled
row's identifier (`ID=1`) makes the write loop overwrite that row's
pre-existing value `"prior"` with `"ans0"`. -/
theorem never_overwrite_claim_false :
    cellBlank (some "prior") = false ∧
    runPipeline (fun _ _ => OaOutcome.resp (some "ID=0 ans0\nID=1 ans0") []) 10
        [⟨some "q ans0 ans1", none⟩, ⟨some "x", some "prior"⟩] =
      .ok ([⟨some "q ans0 ans1", some "ans0"⟩, ⟨some "x", some "ans0"⟩], 1) :=
  ⟨by decide, by decide⟩

/-- Claim C1, amended — Resume skip and idempotence: a row whose output
cell is non-blank is never dispatched (it is excluded from the task list,
so no remote call is made for it, and the single-row loop skips it
without touching state); re-running either pipeline on a table where
every output cell is non-blank makes zero remote calls and returns the
table unchanged.  (The further claim that such a row's cell value always
survives a partial batch run is the part the counterexample refutes; it
holds under the in-contract-response proviso of
`never_overwrite_guarded`.) -/
theorem resume_idempotence_amended (oracle : OaOracle) (bs : Nat)
    (goracle : GenOracle) (jitter : Nat → ℚ) (retries : Nat) (table : List Row) :
    (∀ i row, table[i]? = some row → cellBlank row.b = false →
      i ∉ (collectTasks table).map (fun it => it.1)) ∧
    ((∀ r ∈ table, cellBlank r.b = false) →
      runPipeline oracle bs table = .ok (table, 0)) ∧
    ((∀ r ∈ table, cellBlank r.b = false) →
      runGeminiPipeline goracle jitter retries table = (table, 0)) ∧
    (∀ i row rest t k cur, t[i]? = some cur → cellBlank cur.b = false →
      runGeminiLoop goracle jitter retries ((i, row) :: rest) (t, k) =
        runGeminiLoop goracle jitter retries rest (t, k)) := by
  refine ⟨?_, ?_, ?_, ?_⟩
  · intro i row hrow hpre
    exact not_task_of_filled table i row hrow hpre
  · intro hall
    unfold runPipeline
    rw [collectTasks_nil_of_all_filled table hall]
    rcases bs with _ | b
    · rfl
    · rfl
  · intro hall
    unfold runGeminiPipeline
    exact runGeminiLoop_id_of_filled goracle jitter retries table table.enum 0
      (fun p _ cur hcur => hall cur (mem_of_getElem?_some hcur))
  · intro i row rest t k cur hcur hb
    exact runGeminiLoop_skip_filled goracle jitter retries i row rest t k cur hcur hb

/-- Witness for `resume_idempotence_amended`: a fully answered one-row
table passes through both pipelines with zero remote calls. -/
theorem resume_idempotence_amended_witness :
    runPipeline (fun _ _ => OaOutcome.exn "boom") 10 [⟨some "x", some "done"⟩] =
      .ok ([⟨some "x", some "done"⟩], 0) ∧
    runGeminiPipeline (fun _ _ => GenOutcome.exn "boom") (fun _ => (0 : ℚ)) 6
      [⟨some "x", some "done"⟩] = ([⟨some "x", some "done"⟩], 0) :=
  ⟨(resume_idempotence_amended (fun _ _ => OaOutcome.exn "boom") 10
      (fun _ _ => GenOutcome.exn "boom") (fun _ => (0 : ℚ)) 6
      [⟨some "x", some "done"⟩]).2.1 (by decide),
    (resume_idempotence_amended (fun _ _ => OaOutcome.exn "boom") 10
      (fun _ _ => GenOutcome.exn "boom") (fun _ => (0 : ℚ)) 6
      [⟨some "x", some "done"⟩]).2.2.1 (by decide)⟩

/-- Counterexample to claim C1 — in the batch pipeline, a pre-filled row's
cell ("done", non-blank) is not left unchanged when the batch response
also names that row's identifier: it ends as "ans0". -/
theorem resume_idempotence_claim_false :
    cellBlank (some "done") = false ∧
    runPipeline (fun _ _ => OaOutcome.resp (some "ID=0 ans0\nID=1 ans0") []) 10
        [⟨some "t ans0", none⟩, ⟨some "y", some "done"⟩] =
      .ok ([⟨some "t ans0", some "ans0"⟩, ⟨some "y", some "ans0"⟩], 1) ∧
    (some "ans0" : Option String) ≠ some "done" :=
  ⟨by decide, by decide, by decide⟩

/-- Claim C8, amended — Empty-input skip: a row whose input cell is
missing or whitespace-only is never dispatched (no task, hence no remote
call for it; the single-row loop skips it without touching state), and
its output cell is preserved: unconditionally in the single-row pipeline,
and in the batch pipeline provided every identifier parsed out of a
remote response is a dispatched task identifier.  (Without that proviso a
batch response naming the skipped row's identifier writes to its cell —
see the counterexample.) -/
theorem empty_skip_guarded (oracle : OaOracle) (bs : Nat) (goracle : GenOracle)
    (jitter : Nat → ℚ) (retries : Nat) (table : List Row) :
    (∀ i row, table[i]? = some row → cellBlank row.a = true →
      i ∉ (collectTasks table).map (fun it => it.1)) ∧
    (∀ (t2 : List Row) (k2 i : Nat) (row : Row),
      (∀ k p s k1, call_openai oracle p k = .ok (s, k1) →
        ∀ j ∈ dictKeys (parse_batch_output s),
          j ∈ (collectTasks table).map (fun it => it.1)) →
      table[i]? = some row → cellBlank row.a = true →
      runPipeline oracle bs table = .ok (t2, k2) → t2[i]? = some row) ∧
    (∀ (i : Nat) (row : Row) (rest : List (Nat × Row)) (t : List Row) (k : Nat),
      cellBlank row.a = true →
      runGeminiLoop goracle jitter retries ((i, row) :: rest) (t, k) =
        runGeminiLoop goracle jitter retries rest (t, k)) ∧
    (∀ (i : Nat) (row : Row), table[i]? = some row → cellBlank row.a = true →
      ((runGeminiPipeline goracle jitter retries table).1)[i]? = some row) := by
  refine ⟨?_, ?_, ?_, ?_⟩
  · intro i row hrow ha
    exact not_task_of_blankA table i row hrow ha
  · intro t2 k2 i row Hor hrow ha hrun
    have hnot : i ∉ (collectTasks table).map (fun it => it.1) :=
      not_task_of_blankA table i row hrow ha
    have H : ∀ b ∈ chunked (collectTasks table) bs, ∀ k0 res k1,
        classify_batch oracle b k0 = .ok (res, k1) → ∀ p ∈ res, p.1 ≠ i := by
      intro b hb k0 res k1 hcls p hp
      rcases classify_batch_targets oracle b k0 res k1 hcls p hp with
        ⟨s, kk, hcall, hkey⟩ | hbid
      · intro he
        exact hnot (he ▸ Hor k0 (build_batch_prompt b) s kk hcall p.1 hkey)
      · intro he
        apply hnot
        rw [← he]
        obtain ⟨it, hit, hfst⟩ := List.mem_map.mp hbid
        rw [← hfst]
        exact List.mem_map_of_mem (fun it => it.1)
          (chunked_subset (collectTasks table) bs b it hb hit)
    have hpres := runBatches_preserve oracle i (chunked (collectTasks table) bs)
      table 0 t2 k2 H hrun
    rw [hpres]
    exact hrow
  · intro i row rest t k ha
    exact runGeminiLoop_skip_blankA goracle jitter retries i row rest t k ha
  · intro i row hrow ha
    unfold runGeminiPipeline
    have hpres := runGeminiLoop_preserve_blankA goracle jitter retries i
      table.enum table 0 (fun row2 h2 => by
        have := List.mk_mem_enum_iff_getElem?.mp h2
        rw [hrow] at this
        have he : row = row2 := by simpa using this
        rw [← he]
        exact ha)
    rw [hpres]
    exact hrow

/-- Witness for `empty_skip_guarded`: with token-free responses, the
blank-input second row is untouched by both pipelines. -/
theorem empty_skip_guarded_witness :
    (([⟨some "go", some ""⟩, ⟨none, some "keep"⟩] : List Row))[1]? =
      some ⟨none, some "keep"⟩ ∧
    ((runGeminiPipeline (fun _ _ => GenOutcome.exn "x") (fun _ => (0 : ℚ)) 6
      [⟨some "go", none⟩, ⟨none, some "keep"⟩]).1)[1]? = some ⟨none, some "keep"⟩ :=
  ⟨(empty_skip_guarded (fun _ _ => OaOutcome.resp (some "") []) 10
      (fun _ _ => GenOutcome.exn "x") (fun _ => (0 : ℚ)) 6
      [⟨some "go", none⟩, ⟨none, some "keep"⟩]).2.1
      [⟨some "go", some ""⟩, ⟨none, some "keep"⟩] 2 1 ⟨none, some "keep"⟩
      (by
        intro k p s k1 hok j hj
        have h2 : (Except.ok (pyTrim (pyTrim (String.join [])), k + 1) :
            Except String (String × Nat)) = .ok (s, k1) := hok
        have h3 : pyTrim (pyTrim (String.join [])) = s :=
          congrArg (fun x : Except String (String × Nat) =>
            match x with | .ok u => u.1 | .error _ => "") h2
        rw [← h3] at hj
        rw [show parse_batch_output (pyTrim (pyTrim (String.join []))) = [] from
          by decide] at hj
        exact absurd hj (by simp [dictKeys]))
      (by decide) (by decide) (by decide),
    (empty_skip_guarded (fun _ _ => OaOutcome.resp (some "") []) 10
      (fun _ _ => GenOutcome.exn "x") (fun _ => (0 : ℚ)) 6
      [⟨some "go", none⟩, ⟨none, some "keep"⟩]).2.2.2 1 ⟨none, some "keep"⟩
      (by decide) (by decide)⟩

/-- Counterexample to claim C8 — a batch response that names the identifier of
the empty-input row (`ID=1`) writes `"ans1"` into that row's output cell,
so the cell does not stay untouched. -/
theorem empty_skip_claim_false :
    cellBlank (none : Option String) = true ∧
    runPipeline (fun _ _ => OaOutcome.resp (some "ID=0 ans0\nID=1 ans1") []) 10
        [⟨some "q", none⟩, ⟨none, none⟩] =
      .ok ([⟨some "q", some "ans0"⟩, ⟨none, some "ans1"⟩], 1) :=
  ⟨by decide, by decide⟩

/-- Claim C3, amended — Batch fallback coverage: when the batch response
parses to an identifier set strictly inside the expected set,
`classify_batch` issues one independent single-row call per missing
identifier (the call counter grows by exactly the number of missing
identifiers), the returned mapping binds every row index of the batch,
identifiers present in the batch parse keep their parsed label, and each
missing identifier is bound to its own single call's result — the cleaned
response on success (which is the raw trimmed text when no `ans` token
occurs, not necessarily a label) or an `"ERROR: "` marker on failure. -/
theorem batch_fallback_coverage (oracle : OaOracle)
    (batch : List (Nat × String × List String)) (k k1 : Nat) (s : String)
    (hnd : (batch.map (fun it => it.1)).Nodup)
    (hcall : call_openai oracle (build_batch_prompt batch) k = .ok (s, k1))
    (_hsub1 : ∀ j ∈ dictKeys (parse_batch_output s), j ∈ batch.map (fun it => it.1))
    (hsub2 : ∃ it ∈ batch, dictHasKey (parse_batch_output s) it.1 = false) :
    ∃ res kf, classify_batch oracle batch k = .ok (res, kf) ∧
      kf = k1 + (batch.filter
        (fun it => !dictHasKey (parse_batch_output s) it.1)).length ∧
      (∀ it ∈ batch, ∃ v, dictGet? res it.1 = some v) ∧
      (∀ it ∈ batch, dictHasKey (parse_batch_output s) it.1 = true →
        dictGet? res it.1 = dictGet? (parse_batch_output s) it.1) ∧
      (∀ it ∈ batch, dictHasKey (parse_batch_output s) it.1 = false →
        ∃ j, k1 ≤ j ∧ j < kf ∧
          ((∃ s2 k2, call_openai oracle (build_single_prompt it.2.1 it.2.2) j =
              .ok (s2, k2) ∧ dictGet? res it.1 = some (clean_label s2)) ∨
           (∃ e, call_openai oracle (build_single_prompt it.2.1 it.2.2) j =
              .error e ∧ dictGet? res it.1 = some ("ERROR: " ++ e)))) := by
  have hno : ((batch.map (fun it => it.1)).all
      (fun i => dictHasKey (parse_batch_output s) i)) ≠ true := by
    intro hall
    obtain ⟨it, hit, hfalse⟩ := hsub2
    have := List.all_eq_true.mp hall it.1 (List.mem_map_of_mem (fun it => it.1) hit)
    rw [hfalse] at this
    exact Bool.false_ne_true this
  have hcls : classify_batch oracle batch k =
      .ok (fallbackLoop oracle batch (parse_batch_output s, k1)) := by
    unfold classify_batch
    rw [hcall]
    show (if (batch.map (fun it => it.1)).all
          (fun i => dictHasKey (parse_batch_output s) i) = true
        then (Except.ok (parse_batch_output s, k1) : Except String (Dict × Nat))
        else .ok (fallbackLoop oracle batch (parse_batch_output s, k1))) = _
    rw [if_neg hno]
  obtain ⟨ih1, _ih2, ih3, ih4⟩ := fallbackLoop_spec oracle batch
    (parse_batch_output s) k1 hnd
  refine ⟨(fallbackLoop oracle batch (parse_batch_output s, k1)).1,
    (fallbackLoop oracle batch (parse_batch_output s, k1)).2, hcls, ih1, ?_, ih3, ih4⟩
  intro it hit
  rcases hkey : dictHasKey (parse_batch_output s) it.1
  · obtain ⟨j, _, _, hval⟩ := ih4 it hit hkey
    rcases hval with ⟨s2, k2, _, hget⟩ | ⟨e, _, hget⟩
    · exact ⟨clean_label s2, hget⟩
    · exact ⟨"ERROR: " ++ e, hget⟩
  · obtain ⟨v, hv⟩ := dictGet?_isSome_of_hasKey (parse_batch_output s) it.1 hkey
    refine ⟨v, ?_⟩
    rw [ih3 it hit hkey]
    exact hv

/-- Witness for `batch_fallback_coverage`: a two-row batch whose batch
response answers only `ID=0`; the missing row 1 gets its own call and
every batch row ends up bound in the result. -/
theorem batch_fallback_coverage_witness :
    ∃ res kf, classify_batch
        (fun kk _ => if kk = 0 then OaOutcome.resp (some "ID=0 ans0") []
          else OaOutcome.resp (some "ans1 fits") [])
        [(0, "a", ["ans0"]), (1, "b", ["ans0"])] 0 = .ok (res, kf) ∧
      (∀ it ∈ ([(0, "a", ["ans0"]), (1, "b", ["ans0"])] :
          List (Nat × String × List String)), ∃ v, dictGet? res it.1 = some v) := by
  obtain ⟨res, kf, h1, _h2, h3, _h4, _h5⟩ := batch_fallback_coverage
    (fun kk _ => if kk = 0 then OaOutcome.resp (some "ID=0 ans0") []
      else OaOutcome.resp (some "ans1 fits") [])
    [(0, "a", ["ans0"]), (1, "b", ["ans0"])] 0 1 (pyTrim "ID=0 ans0")
    (by decide) rfl (by decide) (by decide)
  exact ⟨res, kf, h1, h3⟩

/-- Counterexample to claim C3 — a fallback response with no `ans` token is
stored as the raw trimmed text `"no clue"`, which is neither a parsed
label (`ans<digits>`) nor a per-row error-marker string, refuting the
claim's "parsed label or error marker" disjunction.  (The batch response
parses to the empty identifier set, a strict subset of `{0}`.) -/
theorem batch_fallback_label_or_error_false :
    classify_batch (fun kk _ => if kk = 0 then OaOutcome.resp (some "") []
        else OaOutcome.resp (some "no clue") []) [(0, "t", ["ans0"])] 0 =
      .ok ([(0, "no clue")], 2) ∧
    ansLabelShaped "no clue" = false ∧
    ("ERROR: ".data).isPrefixOf "no clue".data = false :=
  ⟨by decide, by decide, by decide⟩

/-- Claim C6, amended — Response parser: `parse_batch_output` returns
exactly the `(identifier, lowercased token)` pairs of the lines matching
`LINE_RE`, folded left-to-right into the dictionary (later duplicates of
an identifier overwrite earlier ones), with non-matching lines discarded
silently; and a line matches `LINE_RE` exactly when it fits the grammar
`ID=<integer> <ans-token>` read case-insensitively in **both** the `ID=`
prefix and the token (whitespace-tolerant as in the regex).  The
amendment is the scope of case-insensitivity: the claim words the grammar
with a literal `ID=`, but the regex is compiled with `IGNORECASE`, so
`id=`/`Id=`/`iD=` lines parse as well — see the counterexample. -/
theorem parser_grammar :
    (∀ text : String, parse_batch_output text =
      ((splitlines text).filterMap (fun ln => (lineREMatch ln).map
        (fun p => (p.1, pyLower p.2)))).foldl (fun m p => dictInsert m p.1 p.2) []) ∧
    (∀ (l : String) (i : Nat) (lab : String),
      lineREMatch l = some (i, lab) ↔ LineGrammar l i lab) :=
  ⟨fun text => parseLinesLoop_eq (splitlines text) [],
    fun l i lab => ⟨grammar_of_lineREMatch l i lab, lineREMatch_of_grammar l i lab⟩⟩

/-- Witness for `parser_grammar` on a concrete response text. -/
theorem parser_grammar_witness :
    parse_batch_output "ID=1 ans0\njunk\nid=2 ANS3" =
      ((splitlines "ID=1 ans0\njunk\nid=2 ANS3").filterMap
        (fun ln => (lineREMatch ln).map (fun p => (p.1, pyLower p.2)))).foldl
        (fun m p => dictInsert m p.1 p.2) [] ∧
    lineREMatch "  ID=12 ans1  " = some (12, "ans1") :=
  ⟨parser_grammar.1 "ID=1 ans0\njunk\nid=2 ANS3",
    (parser_grammar.2 "  ID=12 ans1  " 12 "ans1").mpr
      ⟨[' ', ' '], 'I', 'D', ['1', '2'], [' '], 'a', 'n', 's', ['1'], [' ', ' '],
        by decide, by decide, Or.inl rfl, Or.inl rfl, by decide, by decide,
        by decide, by decide, Or.inl rfl, Or.inl rfl, Or.inl rfl, by decide,
        by decide, by decide, by decide, by decide⟩⟩

/-- Counterexample to claim C6 — the line `"id=7 ans2"` is accepted by the
code's parser (the whole regex is case-insensitive), but the grammar as
worded by the claim — a literal `ID=` prefix with only the token
case-insensitive, embodied by `specLineParse` — rejects it; so the parser
does not return "exactly" the pairs of the claimed grammar. -/
theorem parser_grammar_claim_false :
    parse_batch_output "id=7 ans2" = [(7, "ans2")] ∧
    specLineParse "id=7 ans2" = none ∧
    lineREMatch "id=7 ans2" = some (7, "ans2") :=
  ⟨by decide, by decide, by decide⟩
